import Mathlib

/-!
Verification of the dontbug engine (a reversible-debugger bridge for PHP)
against its natural-language specification.

The Go sources are shallowly embedded: text is modelled as `List Char`
(Go strings are byte strings; all text handled by the claims is ASCII, so
one `Char` per byte), machine integers as `Nat` with explicit `% 2 ^ w`
where overflow matters, Go `int` as `Int`, and fallible code (`log.Fatal`,
index-out-of-range panics) as `Option` with `none` standing for abnormal
termination.
-/

namespace Dontbug

/-- Character list of a string literal; Go strings are modelled as `List Char`. -/

def str (s : String) : List Char := s.data

/-- Decimal digit character for a value `0 ≤ d ≤ 9` (ASCII `'0'` is 48). -/

def decDigit (d : Nat) : Char := Char.ofNat (48 + d)

/-- Fuel-driven core of `natDec`; the fuel only forces structural
termination and never runs out when it starts at `n + 1`. -/

def natDecAux : Nat → Nat → List Char
  | 0, _ => []
  | fuel + 1, n =>
    if n < 10 then [decDigit n]
    else natDecAux fuel (n / 10) ++ [decDigit (n % 10)]

/-- Decimal rendering of a natural number, as produced by Go's
`strconv.Itoa` / `fmt.Sprintf("%v", n)` on a non-negative value. -/

def natDec (n : Nat) : List Char := natDecAux (n + 1) n

/-- Decimal rendering of a Go `int` (`fmt.Sprintf("%v", i)`). -/

def intDec (i : Int) : List Char :=
  if i < 0 then '-' :: natDec i.natAbs else natDec i.toNat

/-- Numeric value of a decimal digit character, if it is one. -/

def digitVal (c : Char) : Option Nat :=
  if 48 ≤ c.toNat ∧ c.toNat ≤ 57 then some (c.toNat - 48) else none

/-- Accumulating decimal parser over a digit list. -/

def digitsToNatAux (acc : Nat) : List Char → Option Nat
  | [] => some acc
  | c :: rest =>
    match digitVal c with
    | none => none
    | some d => digitsToNatAux (acc * 10 + d) rest

/-- Parse a non-empty all-digit list as a natural number. -/

def digitsToNat (l : List Char) : Option Nat :=
  if l = [] then none else digitsToNatAux 0 l

/-- Model of Go's `strconv.Atoi`: an optional sign followed by at least one
decimal digit; anything else is an error (`none`). -/

def goAtoi : List Char → Option Int
  | [] => none
  | c :: rest =>
    if c = '-' then (digitsToNat rest).map (fun n => -(n : Int))
    else if c = '+' then (digitsToNat rest).map (fun n => (n : Int))
    else (digitsToNat (c :: rest)).map (fun n => (n : Int))

/-- Index of the first occurrence of `sub` in `l`, as Go's `strings.Index`
computes it on byte strings, or `none` when `sub` does not occur. -/

def listIndexOf (sub : List Char) : List Char → Option Nat
  | [] => if sub = [] then some 0 else none
  | c :: rest =>
    if sub.isPrefixOf (c :: rest) then some 0
    else (listIndexOf sub rest).map (· + 1)

/-- Does `sub` occur somewhere in `l`? Used when only the existence of the
marker matters, not its position. -/

def containsSub (sub l : List Char) : Bool := (listIndexOf sub l).isSome

/-- Model of Go's `strings.TrimSpace`: drop whitespace from both ends. -/

def trimSpace (l : List Char) : List Char :=
  ((l.dropWhile Char.isWhitespace).reverse.dropWhile Char.isWhitespace).reverse

/-- Association-list insert with Go map semantics: a later insert for the
same key replaces the earlier entry, a fresh key is appended. -/

def insertAL {β : Type} (m : List (List Char × β)) (k : List Char) (v : β) :
    List (List Char × β) :=
  m.filter (fun p => !(p.1 == k)) ++ [(k, v)]

/-- Association-list lookup (Go map read). -/

def lookupAL {β : Type} (m : List (List Char × β)) (k : List Char) : Option β :=
  (m.find? (fun p => p.1 == k)).map (·.2)

/-- Go helper `s(n)`: repeat a space `n` times. -/

def spaces (n : Nat) : List Char := List.replicate n ' '

/-! ### Path hasher: engine functions `djbx33a64` and `djbx33a32`

The two Go functions are byte-for-byte identical except for the word
width, so the loop is modelled once, parameterised by the modulus
`M = 2 ^ w` of the machine word. A byte string is a `List Nat` of byte
values. -/

/-- One update of the DJBX33A fold: Go `hash = ((hash << 5) + hash) + byte`
on a `w`-bit unsigned word, i.e. reduced modulo `M = 2 ^ w`. -/

def djbx33aStep (M h b : Nat) : Nat := (((h <<< 5) + h) + b) % M

/-- The loop shape shared by Go `djbx33a64` and `djbx33a32`: while at least
8 bytes remain, process a block of 8; then process the remaining tail
bytes one by one. -/

def djbx33aLoop (M h : Nat) (byteStr : List Nat) : Nat :=
  if 8 ≤ byteStr.length then
    djbx33aLoop M ((byteStr.take 8).foldl (djbx33aStep M) h) (byteStr.drop 8)
  else
    byteStr.foldl (djbx33aStep M) h
termination_by byteStr.length
decreasing_by simp; omega

/-- Engine `djbx33a64`: seed 5381, DJBX33A fold over the bytes on a 64-bit
word, then force the top bit (Go `hash | (1 << 63)`). -/

def djbx33a64 (byteStr : List Nat) : Nat :=
  djbx33aLoop (2 ^ 64) 5381 byteStr ||| (1 <<< 63)

/-- Engine `djbx33a32`: the 32-bit version of `djbx33a64`. -/

def djbx33a32 (byteStr : List Nat) : Nat :=
  djbx33aLoop (2 ^ 32) 5381 byteStr ||| (1 <<< 31)

/-! ### DBGP codec: outbound framing and the record-mode listener -/

/-- NUL byte (Go `byte(0)`). -/

def nulChar : Char := Char.ofNat 0

/-- The XML declaration header (`header_xml` in `constructDbgpPacket`). -/

def headerXml : List Char := str "<?xml version=\"1.0\" encoding=\"iso-8859-1\"?>\n"

/-- Engine `constructDbgpPacket`: the decimal length of header plus
payload, a NUL, the XML header, the payload, a NUL. -/

def constructDbgpPacket (payload : List Char) : List Char :=
  natDec (payload.length + headerXml.length) ++ [nulChar] ++ headerXml ++ payload ++ [nulChar]

/-- Frame handling of `startBasicDebuggerClient` (cmd/record.go) for one
`conn.Read` that returned exactly one framed packet: locate the first NUL,
`Atoi` the prefix before it, check
`dataLen - (bytesRead - nullAt - 2) == 0`, and extract the logged bytes
`buf[nullAt+1 : bytesRead-1]`. `none` models `log.Fatal`. -/

def readDbgpFrame (readBytes : List Char) : Option (List Char) :=
  (listIndexOf [nulChar] readBytes).bind fun nullAt =>
    (goAtoi (readBytes.take nullAt)).bind fun dataLen =>
      if dataLen - ((readBytes.length : Int) - (nullAt : Int) - 2) ≠ 0 then none
      else some ((readBytes.drop (nullAt + 1)).take (readBytes.length - 1 - (nullAt + 1)))

/-- One iteration of the record-mode listener loop: on a well-framed packet
increment the internal counter and reply `run -i <seq>\x00`; on a framing
error abort (`log.Fatal`). -/

def recordListenerStep (seq : Nat) (readBytes : List Char) : Option (Nat × List Char) :=
  match readDbgpFrame readBytes with
  | none => none
  | some _ => some (seq + 1, str "run -i " ++ natDec (seq + 1) ++ [nulChar])

/-- The record-mode listener over a sequence of reads, collecting the
replies it writes back. -/

def recordListenerRun (seq : Nat) : List (List Char) → Option (List (List Char))
  | [] => some []
  | r :: rest =>
    match recordListenerStep seq r with
    | none => none
    | some (s, reply) => (recordListenerRun s rest).map (reply :: ·)

/-! ### DBGP command parsing (`parseCommand`) and the dispatcher sequence
check (`handleIdeRequest`) -/

/-- Accumulator loop of `fields`; `cur` holds the current field reversed. -/

def fieldsAux (cur : List Char) : List Char → List (List Char)
  | [] => if cur = [] then [] else [cur.reverse]
  | c :: rest =>
    if c.isWhitespace then
      if cur = [] then fieldsAux [] rest else cur.reverse :: fieldsAux [] rest
    else fieldsAux (c :: cur) rest

/-- Model of Go's `strings.Fields`: split on runs of whitespace, no empty
fields. -/

def fields (l : List Char) : List (List Char) := fieldsAux [] l

/-- DBGP command record (`DbgpCmd` struct): the command name, the full raw
command text, the `-key value` options, and the `-i` sequence number. -/

structure DbgpCmd where
  command : List Char
  fullCommand : List Char
  options : List (List Char × List Char)
  sequence : Int
deriving Repr, DecidableEq

/-- Option-collecting loop of `parseCommand` over `components[1:]`: tokens
are consumed in `-key value` pairs (Go loop index arithmetic); a dangling
key makes Go index `components[i+2]` out of range, modelled as `none`. -/

def collectFlags (m : List (List Char × List Char)) :
    List (List Char) → Option (List (List Char × List Char))
  | [] => some m
  | [_] => none
  | k :: v :: rest => collectFlags (insertAL m ((trimSpace k).drop 1) (trimSpace v)) rest

/-- Engine `parseCommand`: tokenize, take the first token as the command
name, collect the option pairs, and require an integer `-i` sequence
number. `none` models `log.Fatal` (and the index panic on an empty
command). -/

def parseCommand (fullCommand : List Char) : Option DbgpCmd :=
  match fields fullCommand with
  | [] => none
  | command :: rest =>
    (collectFlags [] rest).bind fun flags =>
      (lookupAL flags (str "i")).bind fun seq =>
        (goAtoi seq).bind fun seqInt =>
          some ⟨command, fullCommand, flags, seqInt⟩

/-- Sequence-number gate of `handleIdeRequest`: parse the command, abort
(`log.Fatal`) when `es.LastSequenceNum > dbgpCmd.Sequence`, and otherwise
return the new `LastSequenceNum`, namely the received sequence number. -/

def handleIdeRequestSeqCheck (lastSequenceNum : Int) (command : List Char) : Option Int :=
  (parseCommand command).bind fun dbgpCmd =>
    if lastSequenceNum > dbgpCmd.sequence then none
    else some dbgpCmd.sequence

/-- The dispatcher's sequence state threaded over a whole session of
received commands. -/

def dispatcherSeqRun (lastSequenceNum : Int) : List (List Char) → Option Int
  | [] => some lastSequenceNum
  | cmd :: rest =>
    (handleIdeRequestSeqCheck lastSequenceNum cmd).bind fun s => dispatcherSeqRun s rest

/-! ### NDBG string responses: `parseGdbStringResponse` and
`unquoteGdbStringResult` -/

/-- Index loop of `unquoteGdbStringResult`: `full` is the whole input,
`i` the current index, the list argument the remaining characters, and the
flag the Go `skip` variable. Go's `input[i+1]`, reached whenever the current
character is a backslash (the `i < l` guard is always true inside the
loop), panics when `i+1` equals the length; `none` models that panic. -/

def unquoteAux (full : List Char) : Nat → List Char → Bool → Option (List Char)
  | _, [], _ => some []
  | i, c :: rest, skip =>
    if skip then unquoteAux full (i + 1) rest false
    else if c = '\\' ∧ i < full.length then
      match full[i + 1]? with
      | none => none
      | some next =>
        if next = '"' then (unquoteAux full (i + 1) rest true).map (fun t => '"' :: t)
        else (unquoteAux full (i + 1) rest false).map (fun t => c :: t)
    else (unquoteAux full (i + 1) rest false).map (fun t => c :: t)

/-- Engine `unquoteGdbStringResult`: collapse `\"` pairs to `"`. -/

def unquoteGdbStringResult (input : List Char) : Option (List Char) :=
  unquoteAux input 0 input false

/-- Model of Go's `strings.LastIndex` for a single character. -/

def lastIndexOfChar (ch : Char) (l : List Char) : Option Nat :=
  (listIndexOf [ch] l.reverse).map (fun i => l.length - 1 - i)

/-- Engine `parseGdbStringResponse`: find the first and last double quote;
if they are missing or coincide return the error value; otherwise un-escape
the text strictly between them. The outer `none` is the index panic of
`unquoteGdbStringResult`; `Except.error` is the graceful error return. -/

def parseGdbStringResponse (gdbResponse : List Char) :
    Option (Except (List Char) (List Char)) :=
  match listIndexOf ['"'] gdbResponse, lastIndexOfChar '"' gdbResponse with
  | some first, some last =>
    if first = last then
      some (.error (str "Improper gdb data-evaluate-expression string response"))
    else
      (unquoteGdbStringResult ((gdbResponse.drop (first + 1)).take (last - (first + 1)))).map .ok
  | _, _ => some (.error (str "Improper gdb data-evaluate-expression string response"))

/-! ### Breakpoint operations: `setPhpBreakpointInGdbEx`,
`setPhpStackLevelBreakpointInGdb`, `handleBreakpointSetLineBreakpoint` -/

/-- Breakpoint state (`DebugEngineBreakpointState`). -/

inductive DebugEngineBreakpointState where
  | enabled
  | disabled
deriving Repr, DecidableEq

/-- Breakpoint type (the part of `DebugEngineBreakpointType` the modelled
operations construct). -/

inductive DebugEngineBreakpointType where
  | line
  | internal
deriving Repr, DecidableEq

/-- Breakpoint record (`DebugEngineBreakPoint`); the hit-count/condition
fields that the modelled operations leave at their zero values are
omitted. -/

structure DebugEngineBreakPoint where
  id : List Char
  bpType : DebugEngineBreakpointType
  filename : List Char
  lineno : Int
  state : DebugEngineBreakpointState
  temporary : Bool
deriving Repr, DecidableEq

/-- The parts of a NDBG/MI `break-insert` result map that the engine reads:
`result["class"]` and `result["payload"].bkpt.number`. The result is an
input to the modelled operations because it comes from the external NDBG
process. -/

structure GdbBreakInsertResult where
  resultClass : List Char
  bkptNumber : List Char
deriving Repr, DecidableEq

/-- Constant `dontbugCstepLineNum`. -/

def dontbugCstepLineNum : Nat := 95

/-- Engine `setPhpBreakpointInGdbEx`, returning the `break-insert` command
sent to NDBG, the updated breakpoint table, and the new breakpoint id.
`none` models `log.Fatal` (source-map miss, `class != "done"`, duplicate
breakpoint number). -/

def setPhpBreakpointInGdbEx (sourceMap : List (List Char × Int))
    (breakpoints : List (List Char × DebugEngineBreakPoint))
    (phpFilename : List Char) (phpLineno : Int) (disabled : Bool)
    (gdbResult : GdbBreakInsertResult) :
    Option (List Char × List (List Char × DebugEngineBreakPoint) × List Char) :=
  (lookupAL sourceMap phpFilename).bind fun internalLineno =>
    let breakpointState :=
      if disabled then DebugEngineBreakpointState.disabled else DebugEngineBreakpointState.enabled
    let disabledFlag := if disabled then str "-d " else []
    let gdbCmd := str "break-insert " ++ disabledFlag ++ str "-f -c \"lineno == " ++
      intDec phpLineno ++ str "\" --source dontbug_break.c --line " ++ intDec internalLineno
    if gdbResult.resultClass ≠ str "done" then none
    else if (lookupAL breakpoints gdbResult.bkptNumber).isSome then none
    else some (gdbCmd,
      insertAL breakpoints gdbResult.bkptNumber
        { id := gdbResult.bkptNumber, bpType := DebugEngineBreakpointType.line,
          filename := phpFilename, lineno := phpLineno,
          state := breakpointState, temporary := false },
      gdbResult.bkptNumber)

/-- Engine `setPhpStackLevelBreakpointInGdb`: a temporary conditional
breakpoint at the stepping line; it makes no entry in the breakpoint
table. Returns the command sent and the breakpoint id; `none` models
`log.Fatal` on `class != "done"`. -/

def setPhpStackLevelBreakpointInGdb (level : List Char)
    (gdbResult : GdbBreakInsertResult) : Option (List Char × List Char) :=
  let gdbCmd := str "break-insert -t -f -c \"level <= " ++ level ++
    str "\" --source dontbug.c --line " ++ natDec dontbugCstepLineNum
  if gdbResult.resultClass ≠ str "done" then none
  else some (gdbCmd, gdbResult.bkptNumber)

/-- Engine `handleBreakpointSetLineBreakpoint`: read the `-f`, `-s`, `-n`
options and delegate to `setPhpBreakpointInGdbEx`. The `-s` value is
compared against the literal `"disabled "` — trailing space included —
exactly as in the source. -/

def handleBreakpointSetLineBreakpoint (sourceMap : List (List Char × Int))
    (breakpoints : List (List Char × DebugEngineBreakPoint))
    (dCmd : DbgpCmd) (gdbResult : GdbBreakInsertResult) :
    Option (List Char × List (List Char × DebugEngineBreakPoint) × List Char) :=
  (lookupAL dCmd.options (str "f")).bind fun phpFilename =>
    let disabled :=
      match lookupAL dCmd.options (str "s") with
      | some status => status == str "disabled "
      | none => false
    (lookupAL dCmd.options (str "n")).bind fun phpLinenoString =>
      (goAtoi phpLinenoString).bind fun phpLineno =>
        setPhpBreakpointInGdbEx sourceMap breakpoints phpFilename phpLineno disabled gdbResult

/-! ### Generated C file: sentinels, binary-search body, location ladder,
and the sentinel parser

Generated text is modelled as a list of physical lines (`List (List Char)`);
every Go `WriteString`/`Fprintf` of a `\n`-terminated format contributes one
line. The four sentinel tokens are constants of this repository defined in
a source file outside `src/`. -/

/-- Sentinel `phpFilenameSentinel`. Modelled from the spec: the constant's
defining file is not under `src/`; the spec fixes the marker text `//###`
(which the in-`src/` parser `constructBreakpointLocMap` searches for, with
the path at offset `dontbugCpathStartsAt` after the match). -/

def phpFilenameSentinel : List Char := str "//###"

/-- Sentinel `levelSentinel`. Modelled from the spec: the `//$$$` marker
carries the stack level. -/

def levelSentinel : List Char := str "//$$$"

/-- Sentinel `numFilesSentinel`. Modelled from the spec: the first line of
the generated file is this tag directly followed by the file count; the
exact token text is defined outside `src/`, the spec pins only that it is a
comment channel distinct from `//###` and `//$$$` (shown as `//&&&`). -/

def numFilesSentinel : List Char := str "//&&& NUM_FILES_SENTINEL "

/-- Sentinel `maxStackDepthSentinel`. Modelled from the spec, as for
`numFilesSentinel`. -/

def maxStackDepthSentinel : List Char := str "//&&& MAX_STACK_DEPTH_SENTINEL "

/-- Constant `dontbugCpathStartsAt` (part of the replay side). -/

def dontbugCpathStartsAt : Nat := 6

/-- Lines of engine `foundHash`: the hash comment line and the `return`
line carrying the filename sentinel. The Go function receives the bucket
`m[hash]` (always a singleton; collisions are fatal in `makeMap`) and uses
its first element, received here directly as `matchingFile`. -/

def foundHash (hash : Nat) (matchingFile : List Char) (indent : Nat) : List (List Char) :=
  [spaces indent ++ str "// hash == " ++ natDec hash,
   spaces indent ++ str "return; " ++ phpFilenameSentinel ++ str " " ++ matchingFile]

/-- Lines of engine `ifThen` (an `if/else` block around the given bodies). -/

def ifThen (ifc : List Char) (ifb elseb : List (List Char)) (indent : Nat) :
    List (List Char) :=
  [spaces indent ++ str "if (" ++ ifc ++ str ") \x7b"] ++ ifb ++
    [spaces indent ++ str "\x7d else \x7b"] ++ elseb ++ [spaces indent ++ str "\x7d"]

/-- Lines of engine `ifThenElse` (an `if/else if/else` block). -/

def ifThenElse (ifc : List Char) (ifb : List (List Char)) (elseifc : List Char)
    (elseifb elseb : List (List Char)) (indent : Nat) : List (List Char) :=
  [spaces indent ++ str "if (" ++ ifc ++ str ") \x7b"] ++ ifb ++
    [spaces indent ++ str "\x7d else if (" ++ elseifc ++ str ") \x7b"] ++ elseifb ++
    [spaces indent ++ str "\x7d else \x7b"] ++ elseb ++ [spaces indent ++ str "\x7d"]

/-- Engine `eq`: the C equality test on a hash literal. -/

def eqC (rhs : Nat) : List Char := str "hash == Z_UL(" ++ natDec rhs ++ str ")"

/-- Engine `lt`: the C less-than test on a hash literal. -/

def ltC (rhs : Nat) : List Char := str "hash < Z_UL(" ++ natDec rhs ++ str ")"

/-- Engine `generateBreakHelper`, recast from index bounds to the slice
`arr[low..high]` it works on: Go `mid = (high+low)/2` becomes the local
index `(l.length-1)/2`, `recurse(low, mid-1)` the slice `l.take mid`, and
`recurse(mid+1, high)` the slice `l.drop (mid+1)`; `high == low` is
`l.length = 1` and `mid == low` is `mid = 0`. `m` maps each hash to its
file (Go `m[hash][0]`). On an empty slice (unreachable: `makeMap` is fatal
on zero files) the Go code would index out of range; the model emits no
lines. -/

def generateBreakHelper (m : Nat → List Char) (indent : Nat) (l : List Nat) :
    List (List Char) :=
  if l = [] then []
  else
    if l.length = 1 then
      foundHash (l.getD 0 0) (m (l.getD 0 0)) indent
    else if (l.length - 1) / 2 = 0 then
      ifThen (eqC (l.getD ((l.length - 1) / 2) 0))
        (foundHash (l.getD ((l.length - 1) / 2) 0) (m (l.getD ((l.length - 1) / 2) 0))
          (indent + 4))
        (foundHash (l.getD (l.length - 1) 0) (m (l.getD (l.length - 1) 0)) (indent + 4))
        indent
    else
      ifThenElse (eqC (l.getD ((l.length - 1) / 2) 0))
        (foundHash (l.getD ((l.length - 1) / 2) 0) (m (l.getD ((l.length - 1) / 2) 0))
          (indent + 4))
        (ltC (l.getD ((l.length - 1) / 2) 0))
        (generateBreakHelper m (indent + 4) (l.take ((l.length - 1) / 2)))
        (generateBreakHelper m (indent + 4) (l.drop ((l.length - 1) / 2 + 1)))
        indent
termination_by l.length
decreasing_by
  · have hpos : 0 < l.length := List.length_pos.mpr (by assumption)
    simp
    omega
  · have hpos : 0 < l.length := List.length_pos.mpr (by assumption)
    simp
    omega

/-- Engine `generateFileBreakBody`: the search body over the whole sorted
hash array, at indent 4. -/

def generateFileBreakBody (arr : List Nat) (m : Nat → List Char) : List (List Char) :=
  generateBreakHelper m 4 arr

/-- Engine `generateLocBody`: the location ladder, three lines per level
`0 ≤ level < maxStackDepth`. -/

def generateLocBody (maxStackDepth : Nat) : List (List Char) :=
  (List.range maxStackDepth).flatMap (fun level =>
    [str "    if (level <= " ++ natDec level ++ str ") \x7b",
     str "        count++; " ++ levelSentinel ++ str " " ++ natDec level,
     str "    \x7d"])

/-- Engine `generateBreakFile` as the list of lines written to
`dontbug_break.c`: the two sentinel preamble lines, then the four skeleton
fragments around the search body and the location ladder. Each skeleton
parameter is the list of lines its `Fprintln` call writes. The empty line
after the body and after the ladder is the newline `Fprintln` appends to a
string that already ends in one. -/

def generateBreakFile (skelHeader skelFooter skelLocHeader skelLocFooter : List (List Char))
    (arr : List Nat) (m : Nat → List Char) (maxStackDepth : Nat) : List (List Char) :=
  (numFilesSentinel ++ natDec arr.length) ::
    (maxStackDepthSentinel ++ natDec maxStackDepth) ::
    (skelHeader ++ (generateFileBreakBody arr m ++ [[]]) ++ skelFooter ++
      skelLocHeader ++ (generateLocBody maxStackDepth ++ [[]]) ++ skelLocFooter)

/-- One iteration of the line loop of replay-side
`constructBreakpointLocMap`: a line holding the `//###` marker maps
`TrimSpace("file://" + line[index+dontbugCpathStartsAt:])` to the 1-based
line number; any other line leaves the map unchanged. -/

def cblmStep (lineno : Nat) (bpLocMap : List (List Char × Nat)) (line : List Char) :
    List (List Char × Nat) :=
  (listIndexOf phpFilenameSentinel line).elim bpLocMap (fun index =>
    insertAL bpLocMap
      (trimSpace (str "file://" ++ line.drop (index + dontbugCpathStartsAt)))
      lineno)

/-- The line loop of `constructBreakpointLocMap` over the remaining lines. -/

def constructBreakpointLocMapAux (lineno : Nat) (bpLocMap : List (List Char × Nat)) :
    List (List Char) → List (List Char × Nat)
  | [] => bpLocMap
  | line :: rest =>
    constructBreakpointLocMapAux (lineno + 1) (cblmStep lineno bpLocMap line) rest

/-- Engine `constructBreakpointLocMap` over the lines of the generated C
file. -/

def constructBreakpointLocMap (lines : List (List Char)) : List (List Char × Nat) :=
  constructBreakpointLocMapAux 1 [] lines

/-- Evaluation of the generated binary-search decision tree on a query
hash: the same recursion as `generateBreakHelper`, with each emitted
`if (hash == Z_UL(v))` / `if (hash < Z_UL(v))` replaced by the comparison
it compiles to, returning the index (in the sorted slice) of the leaf
reached — the leaf whose `foundHash` lines carry hash `l[j]` and sentinel
path `m l[j]`. Right descents return `mid + 1 +` the index within the
right slice. -/

def evalBreakTree (l : List Nat) (hash : Nat) : Nat :=
  if l = [] then 0
  else
    if l.length = 1 then 0
    else if (l.length - 1) / 2 = 0 then
      (if hash = l.getD ((l.length - 1) / 2) 0 then (l.length - 1) / 2 else l.length - 1)
    else if hash = l.getD ((l.length - 1) / 2) 0 then (l.length - 1) / 2
    else if hash < l.getD ((l.length - 1) / 2) 0 then
      evalBreakTree (l.take ((l.length - 1) / 2)) hash
    else
      (l.length - 1) / 2 + 1 + evalBreakTree (l.drop ((l.length - 1) / 2 + 1)) hash
termination_by l.length
decreasing_by
  · have hpos : 0 < l.length := List.length_pos.mpr (by assumption)
    simp
    omega
  · have hpos : 0 < l.length := List.length_pos.mpr (by assumption)
    simp
    omega

/-! ### Counting and locating the sentinel lines of the generated file -/

/-- Number of lines of the generated file that carry the given marker. -/

def markerLineCount (marker : List Char) (lines : List (List Char)) : Nat :=
  lines.countP (fun line => containsSub marker line)

/-- The lines of the generated file that carry the given marker, in file
order. -/

def markerLines (marker : List Char) (lines : List (List Char)) : List (List Char) :=
  lines.filter (fun line => containsSub marker line)

/-! ### Round trip: parsing the generated file with the sentinel parser -/

/-- Is the optional character absent or not whitespace? -/

def noWsOpt : Option Char → Bool
  | none => true
  | some c => !c.isWhitespace

/-- A path as handled by the scanner: non-empty with no whitespace at
either end, so `TrimSpace` leaves the parsed `file://` key intact. -/

def cleanPath (p : List Char) : Prop :=
  p ≠ [] ∧ noWsOpt p.head? = true ∧ noWsOpt p.getLast? = true

instance (p : List Char) : Decidable (cleanPath p) := by
  rw [cleanPath]
  infer_instance

theorem natDecAux_fuel_irrel : ∀ (fuel₁ fuel₂ n : Nat), n < fuel₁ → n < fuel₂ →
    natDecAux fuel₁ n = natDecAux fuel₂ n := by
  intro fuel₁
  induction fuel₁ with
  | zero => intro fuel₂ n h1 h2; omega
  | succ f ih =>
    intro fuel₂ n h1 h2
    cases fuel₂ with
    | zero => omega
    | succ g =>
      rw [natDecAux, natDecAux]
      split
      · rfl
      · next hge =>
        rw [ih g (n / 10) (by omega) (by omega)]

theorem natDec_eq_rec (n : Nat) :
    natDec n = if n < 10 then [decDigit n] else natDec (n / 10) ++ [decDigit (n % 10)] := by
  rw [natDec, natDecAux]
  split
  · rfl
  · next hge =>
    rw [natDec, natDecAux_fuel_irrel n (n / 10 + 1) (n / 10) (by omega) (by omega)]

/-! ### Basic facts about the text utilities -/

theorem toNat_decDigit {d : Nat} (h : d ≤ 9) : (decDigit d).toNat = 48 + d := by
  interval_cases d <;> decide

theorem natDec_ne_nil (n : Nat) : natDec n ≠ [] := by
  rw [natDec_eq_rec]; split <;> simp

theorem mem_natDec_digit {c : Char} {n : Nat} (h : c ∈ natDec n) :
    48 ≤ c.toNat ∧ c.toNat ≤ 57 := by
  induction n using Nat.strong_induction_on with
  | _ n ih =>
    rw [natDec_eq_rec] at h
    split at h
    · next hlt =>
      simp only [List.mem_singleton] at h
      subst h
      rw [toNat_decDigit (by omega)]
      omega
    · next hge =>
      rcases List.mem_append.mp h with h1 | h2
      · exact ih (n / 10) (Nat.div_lt_self (by omega) (by omega)) h1
      · simp only [List.mem_singleton] at h2
        subst h2
        rw [toNat_decDigit (by omega)]
        omega

theorem digitVal_decDigit (d : Nat) (h : d ≤ 9) :
    digitVal (decDigit d) = some d := by
  rw [digitVal, toNat_decDigit h, if_pos (by omega)]
  simp

theorem digitsToNatAux_append (acc : Nat) (a b : List Char) :
    digitsToNatAux acc (a ++ b) =
      match digitsToNatAux acc a with
      | none => none
      | some v => digitsToNatAux v b := by
  induction a generalizing acc with
  | nil => simp [digitsToNatAux]
  | cons c rest ih =>
    simp only [List.cons_append, digitsToNatAux]
    cases digitVal c with
    | none => simp
    | some d => simpa using ih (acc * 10 + d)

theorem digitsToNatAux_natDec (n acc : Nat) :
    digitsToNatAux acc (natDec n) = some (acc * 10 ^ (natDec n).length + n) := by
  induction n using Nat.strong_induction_on generalizing acc with
  | _ n ih =>
    rw [natDec_eq_rec]
    split
    · next hlt =>
      simp only [digitsToNatAux, digitVal_decDigit n (by omega)]
      simp
    · next hge =>
      rw [digitsToNatAux_append, ih (n / 10) (Nat.div_lt_self (by omega) (by omega)) acc]
      simp only [digitsToNatAux, digitVal_decDigit (n % 10) (by omega)]
      have : (natDec (n / 10) ++ [decDigit (n % 10)]).length = (natDec (n / 10)).length + 1 := by
        simp
      rw [this, pow_succ]
      congr 1
      have := Nat.div_add_mod n 10
      ring_nf
      omega

theorem digitsToNat_natDec (n : Nat) : digitsToNat (natDec n) = some n := by
  rw [digitsToNat, if_neg (natDec_ne_nil n), digitsToNatAux_natDec]
  simp

theorem goAtoi_natDec (n : Nat) : goAtoi (natDec n) = some (n : Int) := by
  obtain ⟨c, t, hct⟩ : ∃ c t, natDec n = c :: t := by
    cases h : natDec n with
    | nil => exact absurd h (natDec_ne_nil n)
    | cons c t => exact ⟨c, t, rfl⟩
  have hdig : 48 ≤ c.toNat ∧ c.toNat ≤ 57 := mem_natDec_digit (by rw [hct]; simp)
  rw [hct, goAtoi]
  have hminus : c ≠ '-' := by
    rintro rfl
    rw [show ('-').toNat = 45 from rfl] at hdig
    omega
  have hplus : c ≠ '+' := by
    rintro rfl
    rw [show ('+').toNat = 43 from rfl] at hdig
    omega
  rw [if_neg hminus, if_neg hplus, ← hct, digitsToNat_natDec]
  simp

theorem isPrefixOf_eq_true_iff (a l : List Char) :
    a.isPrefixOf l = true ↔ ∃ t, a ++ t = l := by
  induction a generalizing l with
  | nil => simp [List.isPrefixOf]
  | cons x xs ih =>
    cases l with
    | nil => simp [List.isPrefixOf]
    | cons y ys =>
      simp only [List.isPrefixOf, Bool.and_eq_true, beq_iff_eq, ih]
      constructor
      · rintro ⟨rfl, t, rfl⟩; exact ⟨t, rfl⟩
      · rintro ⟨t, h⟩
        injection h with h1 h2
        exact ⟨h1, t, h2⟩

theorem containsSub_iff (sub l : List Char) :
    containsSub sub l = true ↔ ∃ a b, l = a ++ sub ++ b := by
  induction l with
  | nil =>
    simp only [containsSub, listIndexOf]
    constructor
    · intro h
      split at h
      · exact ⟨[], [], by simp_all⟩
      · simp at h
    · rintro ⟨a, b, hab⟩
      have hsub : sub = [] := by
        have h1 := List.append_eq_nil.mp hab.symm
        exact (List.append_eq_nil.mp h1.1).2
      simp [hsub]
  | cons c rest ih =>
    simp only [containsSub, listIndexOf]
    by_cases hpre : sub.isPrefixOf (c :: rest)
    · rw [if_pos hpre]
      obtain ⟨t, ht⟩ := (isPrefixOf_eq_true_iff sub (c :: rest)).mp hpre
      exact iff_of_true (by simp) ⟨[], t, by simp [ht]⟩
    · rw [if_neg hpre]
      have hmap : ((listIndexOf sub rest).map (· + 1)).isSome = (listIndexOf sub rest).isSome := by
        cases listIndexOf sub rest <;> simp
      have hcs : (listIndexOf sub rest).isSome = containsSub sub rest := rfl
      rw [hmap, hcs, ih]
      constructor
      · rintro ⟨a, b, rfl⟩; exact ⟨c :: a, b, by simp⟩
      · rintro ⟨a, b, hab⟩
        cases a with
        | nil =>
          exfalso
          apply hpre
          rw [isPrefixOf_eq_true_iff]
          exact ⟨b, by simpa using hab.symm⟩
        | cons a0 a' =>
          injection hab with h1 h2
          exact ⟨a', b, h2⟩

theorem containsSub_of_append (sub a b : List Char) :
    containsSub sub (a ++ sub ++ b) = true :=
  (containsSub_iff sub _).mpr ⟨a, b, rfl⟩

theorem not_containsSub_of_not_mem {ch : Char} {sub l : List Char}
    (hc : ch ∈ sub) (hl : ch ∉ l) : containsSub sub l = false := by
  by_contra h
  have := (containsSub_iff sub l).mp (by simpa using h)
  obtain ⟨a, b, rfl⟩ := this
  exact hl (by simp [hc])

theorem listIndexOf_singleton_append {ch : Char} {a : List Char} (b : List Char)
    (h : ch ∉ a) : listIndexOf [ch] (a ++ ch :: b) = some a.length := by
  induction a with
  | nil =>
    simp only [List.nil_append, listIndexOf]
    rw [if_pos]
    · rfl
    · simp [List.isPrefixOf]
  | cons a0 a' ih =>
    simp only [List.cons_append, listIndexOf]
    rw [if_neg]
    · simp only [List.append_eq]
      rw [ih (by simp_all)]
      simp
    · simp only [List.isPrefixOf, Bool.and_eq_true, beq_iff_eq]
      rintro ⟨rfl, -⟩
      exact h (by simp)

theorem listIndexOf_spaces_append {sub : List Char} {c0 : Char} {t : List Char}
    (hsub : sub = c0 :: t) (hc0 : c0 ≠ ' ') (n : Nat) (l : List Char) :
    listIndexOf sub (spaces n ++ l) = (listIndexOf sub l).map (· + n) := by
  induction n with
  | zero =>
    simp only [spaces, List.replicate, List.nil_append]
    cases listIndexOf sub l <;> simp
  | succ k ih =>
    have hrep : spaces (k + 1) = ' ' :: spaces k := by
      simp [spaces, List.replicate_succ]
    rw [hrep, List.cons_append, listIndexOf]
    rw [if_neg]
    · rw [show ((spaces k ++ l : List Char)) = spaces k ++ l from rfl, ih]
      cases listIndexOf sub l with
      | none => simp
      | some v => simp; omega
    · subst hsub
      simp only [List.isPrefixOf, Bool.and_eq_true, beq_iff_eq]
      rintro ⟨rfl, -⟩
      exact hc0 rfl

theorem dropWhile_eq_self_of_head {l : List Char}
    (h : ∀ c, l.head? = some c → ¬c.isWhitespace) :
    l.dropWhile Char.isWhitespace = l := by
  cases l with
  | nil => rfl
  | cons c t =>
    rw [List.dropWhile_cons, if_neg]
    simpa using h c rfl

theorem trimSpace_eq_self {l : List Char}
    (h1 : ∀ c, l.head? = some c → ¬c.isWhitespace)
    (h2 : ∀ c, l.getLast? = some c → ¬c.isWhitespace) :
    trimSpace l = l := by
  rw [trimSpace, dropWhile_eq_self_of_head h1, dropWhile_eq_self_of_head, List.reverse_reverse]
  intro c hc
  exact h2 c (by rwa [← List.head?_reverse])

theorem djbx33aLoop_eq_foldl (M : Nat) (h : Nat) (byteStr : List Nat) :
    djbx33aLoop M h byteStr = byteStr.foldl (djbx33aStep M) h := by
  induction h, byteStr using djbx33aLoop.induct M with
  | case1 h byteStr hlen ih =>
    rw [djbx33aLoop, if_pos hlen, ih, ← List.foldl_append, List.take_append_drop]
  | case2 h byteStr hlen =>
    rw [djbx33aLoop, if_neg hlen]

theorem foldl_djbx33aStep_lt {M : Nat} (hM : 0 < M) (byteStr : List Nat)
    {h : Nat} (hh : h < M) : byteStr.foldl (djbx33aStep M) h < M := by
  induction byteStr generalizing h with
  | nil => exact hh
  | cons b rest ih =>
    exact ih (Nat.mod_lt _ hM)

theorem or_top_shiftRight {x w : Nat} (hx : x < 2 ^ (w + 1)) :
    (x ||| 1 <<< w) >>> w = 1 := by
  have htop : 1 <<< w = 2 ^ w := by rw [Nat.shiftLeft_eq]; ring
  rw [htop, Nat.shiftRight_eq_div_pow]
  have hlt : x ||| 2 ^ w < 2 ^ (w + 1) :=
    Nat.or_lt_two_pow hx (Nat.pow_lt_pow_right (by omega) (by omega))
  have hbit : (x ||| 2 ^ w).testBit w = true := by
    rw [Nat.testBit_or, Nat.testBit_two_pow_self]
    simp
  rw [Nat.testBit_to_div_mod] at hbit
  simp only [decide_eq_true_eq] at hbit
  have h2 : (x ||| 2 ^ w) / 2 ^ w < 2 := by
    rw [Nat.div_lt_iff_lt_mul (Nat.pos_pow_of_pos w (by omega))]
    calc x ||| 2 ^ w < 2 ^ (w + 1) := hlt
    _ = 2 * 2 ^ w := by ring
  generalize (x ||| 2 ^ w) / 2 ^ w = q at hbit h2 ⊢
  omega

/-- C2: for every byte string `p`, `djbx33a64 p` (resp. `djbx33a32 p`) equals
the DJBX33A fold — seed 5381, step `h = ((h <<< 5) + h) + byte` modulo the
word size, bytes consumed in order (the blocks-of-8-plus-tail loop of the
source is equivalent to the plain fold) — with the top bit of the word
forced to 1, so shifting right by `W - 1` always yields 1; both functions
are pure total Lean functions. -/

theorem claim_C2_djbx33a_fold_top_bit (p : List Nat) :
    djbx33a64 p = (p.foldl (fun h b => (((h <<< 5) + h) + b) % 2 ^ 64) 5381) ||| 1 <<< 63 ∧
    djbx33a64 p >>> 63 = 1 ∧
    djbx33a32 p = (p.foldl (fun h b => (((h <<< 5) + h) + b) % 2 ^ 32) 5381) ||| 1 <<< 31 ∧
    djbx33a32 p >>> 31 = 1 := by
  refine ⟨?_, ?_, ?_, ?_⟩
  · rw [djbx33a64, djbx33aLoop_eq_foldl]
    rfl
  · rw [djbx33a64]
    refine or_top_shiftRight (w := 63) ?_
    rw [djbx33aLoop_eq_foldl]
    exact foldl_djbx33aStep_lt (by norm_num) p (by norm_num)
  · rw [djbx33a32, djbx33aLoop_eq_foldl]
    rfl
  · rw [djbx33a32]
    refine or_top_shiftRight (w := 31) ?_
    rw [djbx33aLoop_eq_foldl]
    exact foldl_djbx33aStep_lt (by norm_num) p (by norm_num)

theorem nulChar_not_mem_natDec (n : Nat) : nulChar ∉ natDec n := by
  intro h
  have := mem_natDec_digit h
  rw [show nulChar.toNat = 0 from rfl] at this
  omega

theorem readDbgpFrame_wellFramed {d x : List Char} (hd : nulChar ∉ d)
    (hlen : goAtoi d = some (x.length : Int)) :
    readDbgpFrame (d ++ nulChar :: (x ++ [nulChar])) = some x := by
  rw [readDbgpFrame, listIndexOf_singleton_append (x ++ [nulChar]) hd, Option.some_bind]
  rw [List.take_left' rfl, hlen, Option.some_bind]
  rw [if_neg]
  · have hdrop : (d ++ nulChar :: (x ++ [nulChar])).drop (d.length + 1) = x ++ [nulChar] := by
      rw [show (d ++ nulChar :: (x ++ [nulChar])) = (d ++ [nulChar]) ++ (x ++ [nulChar]) by simp]
      rw [show d.length + 1 = (d ++ [nulChar]).length by simp]
      exact List.drop_left _ _
    rw [hdrop]
    have hlength : (d ++ nulChar :: (x ++ [nulChar])).length = d.length + x.length + 2 := by
      simp
      omega
    rw [hlength]
    rw [show d.length + x.length + 2 - 1 - (d.length + 1) = x.length by omega]
    rw [List.take_left' rfl]
  · have hlength : (d ++ nulChar :: (x ++ [nulChar])).length = d.length + x.length + 2 := by
      simp
      omega
    rw [hlength]
    push_cast
    ring_nf
    omega

/-- C7: the outbound DBGP frame is the ASCII decimal length of header plus
payload, a NUL, the XML declaration header, the payload, a NUL; the length
prefix equals `len(headerXml) + len(payload)`; and reading such a frame
back with the in-repo frame reader recovers `headerXml ++ payload`. -/

theorem claim_C7_dbgp_frame (payload : List Char) :
    constructDbgpPacket payload =
      natDec (headerXml.length + payload.length) ++
        nulChar :: ((headerXml ++ payload) ++ [nulChar]) ∧
    readDbgpFrame (constructDbgpPacket payload) = some (headerXml ++ payload) := by
  have heq : constructDbgpPacket payload =
      natDec (headerXml.length + payload.length) ++
        nulChar :: ((headerXml ++ payload) ++ [nulChar]) := by
    rw [constructDbgpPacket, Nat.add_comm payload.length headerXml.length]
    simp
  refine ⟨heq, ?_⟩
  rw [heq]
  refine readDbgpFrame_wellFramed (nulChar_not_mem_natDec _) ?_
  rw [goAtoi_natDec]
  simp

/-- C6 (amended): for every sequence of well-framed inbound packets, the
record-mode listener replies to the `j`-th packet (0-based) with exactly
`run -i <j+1>\x00`, driven by its internal counter and independent of any
sequence number carried inside the packet payload. -/

theorem claim_C6_record_auto_run (ps : List (List Char × List Char)) (seq : Nat)
    (h : ∀ p ∈ ps, nulChar ∉ p.1 ∧ goAtoi p.1 = some (p.2.length : Int)) :
    recordListenerRun seq (ps.map (fun p => p.1 ++ nulChar :: (p.2 ++ [nulChar]))) =
      some ((List.range ps.length).map
        (fun j => str "run -i " ++ natDec (seq + j + 1) ++ [nulChar])) := by
  induction ps generalizing seq with
  | nil => simp [recordListenerRun]
  | cons p ps ih =>
    have hp := h p (by simp)
    have hstep : recordListenerStep seq (p.1 ++ nulChar :: (p.2 ++ [nulChar])) =
        some (seq + 1, str "run -i " ++ natDec (seq + 1) ++ [nulChar]) := by
      rw [recordListenerStep.eq_def, readDbgpFrame_wellFramed hp.1 hp.2]
    simp only [List.map_cons, recordListenerRun, hstep]
    rw [ih (seq + 1) (fun q hq => h q (by simp [hq]))]
    simp only [Option.map_some']
    congr 1
    rw [List.length_cons, List.range_succ_eq_map]
    simp only [List.map_cons, List.map_map]
    rw [show seq + 0 + 1 = seq + 1 by omega]
    congr 1
    refine List.map_congr_left (fun j _ => ?_)
    simp only [Function.comp_apply]
    rw [show seq + (j + 1) + 1 = seq + 1 + j + 1 by omega]

/-- Witness for C6 (amended): two concrete well-framed packets produce the
replies `run -i 1\x00` and `run -i 2\x00`. -/

theorem claim_C6_record_auto_run_witness :
    recordListenerRun 0
        ([(str "3", str "abc"), (str "2", str "hi")].map
          (fun p => p.1 ++ nulChar :: (p.2 ++ [nulChar]))) =
      some ((List.range ([(str "3", str "abc"), (str "2", str "hi")].length)).map
        (fun j => str "run -i " ++ natDec (0 + j + 1) ++ [nulChar])) :=
  claim_C6_record_auto_run [(str "3", str "abc"), (str "2", str "hi")] 0 (by decide)

/-- C6 counterexample: a single well-framed packet whose XML payload carries
the sequence number 7 (`transaction_id="7"`) is answered with
`run -i 1\x00` — the count of packets so far — and not with
`run -i 8\x00` as the claim (reply sequence = inbound sequence + 1) would
require. -/

theorem claim_C6_counterexample :
    recordListenerRun 0
        [str "30" ++ nulChar :: (str "<response transaction_id=\"7\"/>" ++ [nulChar])] =
      some [str "run -i 1" ++ [nulChar]] ∧
    str "run -i 1" ++ [nulChar] ≠ str "run -i 8" ++ [nulChar] := by
  constructor
  · decide
  · decide

/-- C5 (amended): the dispatcher is fatal on a received sequence number
strictly below the last accepted one, and accepts any received sequence
number greater than or equal to the last (equality included), updating the
stored number to the received one. -/

theorem claim_C5_sequence_check (last : Int) (cmd : List Char) (c : DbgpCmd)
    (hparse : parseCommand cmd = some c) :
    (c.sequence < last → handleIdeRequestSeqCheck last cmd = none) ∧
    (last ≤ c.sequence → handleIdeRequestSeqCheck last cmd = some c.sequence) := by
  rw [handleIdeRequestSeqCheck, hparse, Option.some_bind]
  constructor
  · intro hlt
    rw [if_pos (by omega)]
  · intro hle
    rw [if_neg (by omega)]

/-- Witness for C5 (amended): with last accepted number 3, the command
`status -i 2` is fatal and the command `status -i 7` is accepted. -/

theorem claim_C5_sequence_check_witness :
    handleIdeRequestSeqCheck 3 (str "status -i 2") = none ∧
    handleIdeRequestSeqCheck 3 (str "status -i 7") = some 7 :=
  ⟨(claim_C5_sequence_check 3 (str "status -i 2")
      ⟨str "status", str "status -i 2", [(str "i", str "2")], 2⟩ (by decide)).1 (by decide),
   (claim_C5_sequence_check 3 (str "status -i 7")
      ⟨str "status", str "status -i 7", [(str "i", str "7")], 7⟩ (by decide)).2 (by decide)⟩

/-- C5 counterexample: a received sequence number equal to the last accepted
one does not strictly exceed it, yet the dispatcher accepts it: with last
accepted number 5, the command `status -i 5` is not fatal. The claim
requires this case to be fatal. -/

theorem claim_C5_counterexample :
    handleIdeRequestSeqCheck 5 (str "status -i 5") = some 5 ∧
    ¬ ((5 : Int) > 5) := by
  constructor
  · decide
  · decide

/-- C10: when the text between the first and last quote of a NDBG string
response ends in a backslash, the un-escaper indexes one past the end of
its input (Go `input[i+1]` with `i+1 = len(input)`), modelled as `none`:
on the response `x "ab\"` the extracted text `ab\` makes both the
un-escaper and the whole response parser crash, contradicting the claim
that the routine never reads past the end of its input. -/

theorem claim_C10_unquote_out_of_range :
    unquoteGdbStringResult (str "ab\\") = none ∧
    parseGdbStringResponse (str "x \"ab\\\"") = none := by
  constructor
  · decide
  · rfl

/-- C8: evaluation at the failing input. The DBGP command
`breakpoint_set -i 8 -t line -f file:///src/a.php -n 42 -s disabled`
parses with option `s` equal to `disabled`, yet the engine issues
`break-insert` without the `-d` flag and records the breakpoint with state
enabled — the `-s disabled` handling is dead code because tokenized option
values can never equal the literal `"disabled "` with its trailing
space. -/

theorem claim_C8_breakpoint_set_disabled_dead :
    ∃ c, parseCommand
        (str "breakpoint_set -i 8 -t line -f file:///src/a.php -n 42 -s disabled") = some c ∧
      lookupAL c.options (str "s") = some (str "disabled") ∧
      handleBreakpointSetLineBreakpoint [(str "file:///src/a.php", 500)] [] c
          ⟨str "done", str "3"⟩ =
        some (str "break-insert -f -c \"lineno == 42\" --source dontbug_break.c --line 500",
          [(str "3",
            { id := str "3", bpType := DebugEngineBreakpointType.line,
              filename := str "file:///src/a.php", lineno := 42,
              state := DebugEngineBreakpointState.enabled, temporary := false })],
          str "3") := by
  refine ⟨⟨str "breakpoint_set",
    str "breakpoint_set -i 8 -t line -f file:///src/a.php -n 42 -s disabled",
    [(str "i", str "8"), (str "t", str "line"), (str "f", str "file:///src/a.php"),
     (str "n", str "42"), (str "s", str "disabled")], 8⟩, ?_, ?_, ?_⟩
  · decide
  · decide
  · decide

/-- C9: a breakpoint-creating operation leaves the table untouched (is
fatal) unless the NDBG result class is `done`, and on success the new
table extends the old one by a single entry whose key equals both the
entry's `Id` field and the breakpoint number returned by NDBG, preserving
the key-equals-Id invariant. -/

theorem claim_C9_table_only_after_done (sourceMap : List (List Char × Int))
    (breakpoints : List (List Char × DebugEngineBreakPoint))
    (phpFilename : List Char) (phpLineno : Int) (disabled : Bool)
    (gdbResult : GdbBreakInsertResult) (level : List Char) :
    (gdbResult.resultClass ≠ str "done" →
      setPhpBreakpointInGdbEx sourceMap breakpoints phpFilename phpLineno disabled gdbResult
          = none ∧
      setPhpStackLevelBreakpointInGdb level gdbResult = none) ∧
    (∀ gdbCmd table' id,
      setPhpBreakpointInGdbEx sourceMap breakpoints phpFilename phpLineno disabled gdbResult
          = some (gdbCmd, table', id) →
      gdbResult.resultClass = str "done" ∧ id = gdbResult.bkptNumber ∧
      ((∀ p ∈ breakpoints, p.2.id = p.1) → ∀ p ∈ table', p.2.id = p.1)) := by
  constructor
  · intro hclass
    constructor
    · rw [setPhpBreakpointInGdbEx]
      cases hsm : lookupAL sourceMap phpFilename with
      | none => rfl
      | some v =>
        rw [Option.some_bind]
        simp only [if_pos hclass]
    · rw [setPhpStackLevelBreakpointInGdb]
      simp only [if_pos hclass]
  · intro gdbCmd table' id hsome
    rw [setPhpBreakpointInGdbEx] at hsome
    cases hsm : lookupAL sourceMap phpFilename with
    | none => rw [hsm] at hsome; exact absurd hsome (by simp)
    | some internalLineno =>
      rw [hsm, Option.some_bind] at hsome
      by_cases hclass : gdbResult.resultClass = str "done"
      · rw [if_neg (by simp [hclass])] at hsome
        by_cases hdup : (lookupAL breakpoints gdbResult.bkptNumber).isSome
        · rw [if_pos hdup] at hsome
          exact absurd hsome (by simp)
        · rw [if_neg hdup] at hsome
          injection hsome with h1
          injection h1 with hcmd hrest
          injection hrest with htab hid
          refine ⟨hclass, hid.symm, ?_⟩
          intro hinv p hp
          rw [← htab] at hp
          rw [insertAL] at hp
          rcases List.mem_append.mp hp with hmem | hmem
          · exact hinv p (List.mem_of_mem_filter hmem)
          · simp only [List.mem_singleton] at hmem
            subst hmem
            rfl
      · rw [if_pos hclass] at hsome
        exact absurd hsome (by simp)

/-- Witness for C9: a concrete `break-insert` result whose class is not
`done` is fatal for both breakpoint-creating operations, with the table
untouched. -/

theorem claim_C9_table_only_after_done_witness :
    setPhpBreakpointInGdbEx [(str "file:///a.php", 500)] [] (str "file:///a.php") 7 false
        ⟨str "error", str "4"⟩ = none ∧
    setPhpStackLevelBreakpointInGdb (str "2") ⟨str "error", str "4"⟩ = none :=
  (claim_C9_table_only_after_done [(str "file:///a.php", 500)] [] (str "file:///a.php") 7 false
    ⟨str "error", str "4"⟩ (str "2")).1 (by decide)

theorem evalBreakTree_correct :
    ∀ (n : Nat) (l : List Nat), l.length ≤ n → List.Pairwise (· < ·) l →
      (∀ (i : Nat) (hi : i < l.length), evalBreakTree l l[i] = i) ∧
      (∀ hash, l ≠ [] → evalBreakTree l hash < l.length) := by
  intro n
  induction n with
  | zero =>
    intro l hlen hsort
    constructor
    · intro i hi
      omega
    · intro hash hne
      exact absurd (List.length_eq_zero.mp (by omega)) hne
  | succ n ih =>
    intro l hlen hsort
    by_cases hnil : l = []
    · subst hnil
      exact ⟨fun i hi => by simp at hi, fun hash hne => absurd rfl hne⟩
    have hpos : 0 < l.length := List.length_pos.mpr hnil
    by_cases h1 : l.length = 1
    · constructor
      · intro i hi
        rw [evalBreakTree, if_neg hnil, if_pos h1]
        omega
      · intro hash hne
        rw [evalBreakTree, if_neg hnil, if_pos h1]
        omega
    by_cases hmid0 : (l.length - 1) / 2 = 0
    · have hlen2 : l.length = 2 := by omega
      have h01 : l[0] < l[1] :=
        (List.pairwise_iff_getElem.mp hsort) 0 1 (by omega) (by omega) (by omega)
      constructor
      · intro i hi
        rw [evalBreakTree, if_neg hnil, if_neg h1, if_pos hmid0, hmid0,
          List.getD_eq_getElem l 0 (by omega)]
        have hi2 : i < 2 := by omega
        interval_cases i
        · rw [if_pos rfl]
        · rw [if_neg (by omega), hlen2]
      · intro hash hne
        rw [evalBreakTree, if_neg hnil, if_neg h1, if_pos hmid0, hmid0]
        split <;> omega
    · -- the recursive `if/else if/else` case: at least three elements
      have hmlt : (l.length - 1) / 2 < l.length - 1 := Nat.div_lt_self (by omega) (by omega)
      have hmpos : 0 < (l.length - 1) / 2 := by omega
      have hltake : (l.take ((l.length - 1) / 2)).length = (l.length - 1) / 2 := by
        simp
        omega
      have hldrop : (l.drop ((l.length - 1) / 2 + 1)).length =
          l.length - ((l.length - 1) / 2 + 1) := by
        simp
      have hstake : List.Pairwise (· < ·) (l.take ((l.length - 1) / 2)) :=
        hsort.sublist (List.take_sublist _ l)
      have hsdrop : List.Pairwise (· < ·) (l.drop ((l.length - 1) / 2 + 1)) :=
        hsort.sublist (List.drop_sublist _ l)
      have ihtake := ih (l.take ((l.length - 1) / 2)) (by omega) hstake
      have ihdrop := ih (l.drop ((l.length - 1) / 2 + 1)) (by rw [hldrop]; omega) hsdrop
      have hgetD : l.getD ((l.length - 1) / 2) 0 = l[(l.length - 1) / 2] :=
        List.getD_eq_getElem l 0 (by omega)
      constructor
      · intro i hi
        rcases Nat.lt_trichotomy i ((l.length - 1) / 2) with hilt | hieq | higt
        · have hcmp : l[i] < l[(l.length - 1) / 2] :=
            (List.pairwise_iff_getElem.mp hsort) i _ hi (by omega) hilt
          rw [evalBreakTree, if_neg hnil, if_neg h1, if_neg hmid0, hgetD,
            if_neg (by omega), if_pos hcmp]
          have hix : l[i] = (l.take ((l.length - 1) / 2))[i] :=
            (List.getElem_take l).symm
          rw [hix]
          exact ihtake.1 i (by omega)
        · subst hieq
          rw [evalBreakTree, if_neg hnil, if_neg h1, if_neg hmid0, hgetD, if_pos rfl]
        · have hcmp : l[(l.length - 1) / 2] < l[i] :=
            (List.pairwise_iff_getElem.mp hsort) _ i (by omega) hi higt
          rw [evalBreakTree, if_neg hnil, if_neg h1, if_neg hmid0, hgetD,
            if_neg (by omega), if_neg (by omega)]
          have hib : i - ((l.length - 1) / 2 + 1) <
              (l.drop ((l.length - 1) / 2 + 1)).length := by
            rw [hldrop]; omega
          have hix : l[i] =
              (l.drop ((l.length - 1) / 2 + 1))[i - ((l.length - 1) / 2 + 1)] := by
            rw [List.getElem_drop l]
            congr 1
            omega
          rw [hix, ihdrop.1 (i - ((l.length - 1) / 2 + 1)) (by rw [hldrop]; omega)]
          omega
      · intro hash hne
        rw [evalBreakTree, if_neg hnil, if_neg h1, if_neg hmid0, hgetD]
        split
        · omega
        · split
          · have := ihtake.2 hash (by
              intro hcon
              rw [hcon] at hltake
              simp at hltake
              omega)
            omega
          · have := ihdrop.2 hash (by
              intro hcon
              rw [hcon] at hldrop
              simp at hldrop
              omega)
            omega

/-- C1: over a non-empty strictly ascending hash array — as produced by
`makeMap`, which sorts and makes hash collisions fatal — evaluating the
generated binary-search decision tree (`evalBreakTree`, the `if/else
if/else` recursion of `generateBreakHelper` with each emitted comparison
given its C meaning) on the `i`-th hash reaches exactly leaf `i`, the leaf
whose `foundHash` lines carry that hash and its file's path sentinel; and
evaluating it on an arbitrary hash, in the set or not, terminates at some
defined leaf. -/

theorem claim_C1_binary_search (arr : List Nat)
    (hsorted : List.Pairwise (· < ·) arr) (hne : arr ≠ []) :
    (∀ (i : Nat) (hi : i < arr.length), evalBreakTree arr arr[i] = i) ∧
    (∀ hash, evalBreakTree arr hash < arr.length) :=
  ⟨(evalBreakTree_correct arr.length arr le_rfl hsorted).1,
   fun hash => (evalBreakTree_correct arr.length arr le_rfl hsorted).2 hash hne⟩

/-- Witness for C1: on the sorted hash array `[11, 22, 33]`, the query 22
reaches leaf 1 and the out-of-set query 99 still lands on a defined
leaf. -/

theorem claim_C1_binary_search_witness :
    evalBreakTree [11, 22, 33] 22 = 1 ∧ evalBreakTree [11, 22, 33] 99 < 3 :=
  ⟨by
    have h := (claim_C1_binary_search [11, 22, 33] (by decide) (by decide)).1 1 (by decide)
    simpa using h,
   by
    have h := (claim_C1_binary_search [11, 22, 33] (by decide) (by decide)).2 99
    simpa using h⟩

theorem noPhp_of_no_hash {line : List Char} (h : '#' ∉ line) :
    containsSub phpFilenameSentinel line = false :=
  not_containsSub_of_not_mem (by decide) h

theorem noLvl_of_no_dollar {line : List Char} (h : '$' ∉ line) :
    containsSub levelSentinel line = false :=
  not_containsSub_of_not_mem (by decide) h

theorem hash_not_mem_natDec (n : Nat) : '#' ∉ natDec n := by
  intro h
  have := mem_natDec_digit h
  rw [show ('#').toNat = 35 from rfl] at this
  omega

theorem dollar_not_mem_natDec (n : Nat) : '$' ∉ natDec n := by
  intro h
  have := mem_natDec_digit h
  rw [show ('$').toNat = 36 from rfl] at this
  omega

theorem not_mem_spaces {c : Char} (hc : c ≠ ' ') (n : Nat) : c ∉ spaces n := by
  intro h
  exact hc (List.eq_of_mem_replicate h)

theorem char_not_mem_hashComment {c : Char} (ind h : Nat) (hsp : c ≠ ' ')
    (h1 : c ∉ str "// hash == ") (hdig : c ∉ natDec h) :
    c ∉ spaces ind ++ str "// hash == " ++ natDec h := by
  intro hmem
  rcases List.mem_append.mp hmem with hmem | hmem
  · rcases List.mem_append.mp hmem with hmem | hmem
    · exact not_mem_spaces hsp ind hmem
    · exact h1 hmem
  · exact hdig hmem

theorem char_not_mem_eqLine {c : Char} (ind h : Nat) (hsp : c ≠ ' ')
    (h1 : c ∉ str "if (") (h2 : c ∉ str "hash == Z_UL(") (h3 : c ∉ str ")")
    (h4 : c ∉ str ") \x7b") (hdig : c ∉ natDec h) :
    c ∉ spaces ind ++ str "if (" ++ eqC h ++ str ") \x7b" := by
  intro hmem
  rw [eqC] at hmem
  rcases List.mem_append.mp hmem with hmem | hmem
  · rcases List.mem_append.mp hmem with hmem | hmem
    · rcases List.mem_append.mp hmem with hmem | hmem
      · exact not_mem_spaces hsp ind hmem
      · exact h1 hmem
    · rcases List.mem_append.mp hmem with hmem | hmem
      · rcases List.mem_append.mp hmem with hmem | hmem
        · exact h2 hmem
        · exact hdig hmem
      · exact h3 hmem
  · exact h4 hmem

theorem char_not_mem_elseifLine {c : Char} (ind h : Nat) (hsp : c ≠ ' ')
    (h1 : c ∉ str "\x7d else if (") (h2 : c ∉ str "hash < Z_UL(") (h3 : c ∉ str ")")
    (h4 : c ∉ str ") \x7b") (hdig : c ∉ natDec h) :
    c ∉ spaces ind ++ str "\x7d else if (" ++ ltC h ++ str ") \x7b" := by
  intro hmem
  rw [ltC] at hmem
  rcases List.mem_append.mp hmem with hmem | hmem
  · rcases List.mem_append.mp hmem with hmem | hmem
    · rcases List.mem_append.mp hmem with hmem | hmem
      · exact not_mem_spaces hsp ind hmem
      · exact h1 hmem
    · rcases List.mem_append.mp hmem with hmem | hmem
      · rcases List.mem_append.mp hmem with hmem | hmem
        · exact h2 hmem
        · exact hdig hmem
      · exact h3 hmem
  · exact h4 hmem

theorem char_not_mem_elseLine {c : Char} (ind : Nat) (hsp : c ≠ ' ')
    (h1 : c ∉ str "\x7d else \x7b") :
    c ∉ spaces ind ++ str "\x7d else \x7b" := by
  intro hmem
  rcases List.mem_append.mp hmem with hmem | hmem
  · exact not_mem_spaces hsp ind hmem
  · exact h1 hmem

theorem char_not_mem_closeLine {c : Char} (ind : Nat) (hsp : c ≠ ' ')
    (h1 : c ∉ str "\x7d") :
    c ∉ spaces ind ++ str "\x7d" := by
  intro hmem
  rcases List.mem_append.mp hmem with hmem | hmem
  · exact not_mem_spaces hsp ind hmem
  · exact h1 hmem

theorem char_not_mem_returnLine {c : Char} (ind : Nat) (path : List Char) (hsp : c ≠ ' ')
    (h1 : c ∉ str "return; ") (h2 : c ∉ phpFilenameSentinel) (h3 : c ∉ str " ")
    (hpath : c ∉ path) :
    c ∉ spaces ind ++ str "return; " ++ phpFilenameSentinel ++ str " " ++ path := by
  intro hmem
  rcases List.mem_append.mp hmem with hmem | hmem
  · rcases List.mem_append.mp hmem with hmem | hmem
    · rcases List.mem_append.mp hmem with hmem | hmem
      · rcases List.mem_append.mp hmem with hmem | hmem
        · exact not_mem_spaces hsp ind hmem
        · exact h1 hmem
      · exact h2 hmem
    · exact h3 hmem
  · exact hpath hmem

theorem containsSub_php_returnLine (ind : Nat) (path : List Char) :
    containsSub phpFilenameSentinel
      (spaces ind ++ str "return; " ++ phpFilenameSentinel ++ str " " ++ path) = true := by
  refine (containsSub_iff _ _).mpr ⟨spaces ind ++ str "return; ", str " " ++ path, ?_⟩
  simp

theorem getD_mem {l : List Nat} {i : Nat} (h : i < l.length) : l.getD i 0 ∈ l := by
  rw [List.getD_eq_getElem l 0 h]
  exact List.getElem_mem h

theorem markerLineCount_php_foundHash (h : Nat) (path : List Char) (ind : Nat) :
    markerLineCount phpFilenameSentinel (foundHash h path ind) = 1 := by
  rw [markerLineCount, foundHash]
  have hc1 := noPhp_of_no_hash
    (char_not_mem_hashComment ind h (by decide) (by decide) (hash_not_mem_natDec h))
  have hc2 := containsSub_php_returnLine ind path
  simp only [List.countP_cons, List.countP_nil, hc1, hc2]
  simp

theorem no_dollar_foundHash {hv : Nat} {path : List Char} {ind : Nat} (hpath : '$' ∉ path) :
    ∀ line ∈ foundHash hv path ind, '$' ∉ line := by
  intro line hline
  rw [foundHash] at hline
  rcases List.mem_cons.mp hline with rfl | hline
  · exact char_not_mem_hashComment ind hv (by decide) (by decide) (dollar_not_mem_natDec hv)
  rcases List.mem_cons.mp hline with rfl | hline
  · exact char_not_mem_returnLine ind path (by decide) (by decide) (by decide) (by decide)
      hpath
  · cases hline

theorem generateBreakHelper_php_count :
    ∀ (n : Nat) (l : List Nat) (m : Nat → List Char) (ind : Nat), l.length ≤ n →
      markerLineCount phpFilenameSentinel (generateBreakHelper m ind l) = l.length := by
  intro n
  induction n with
  | zero =>
    intro l m ind hlen
    have hnil : l = [] := List.length_eq_zero.mp (by omega)
    subst hnil
    rw [generateBreakHelper, if_pos rfl]
    rfl
  | succ n ih =>
    intro l m ind hlen
    by_cases hnil : l = []
    · subst hnil
      rw [generateBreakHelper, if_pos rfl]
      rfl
    have hpos : 0 < l.length := List.length_pos.mpr hnil
    have hif := fun hv => noPhp_of_no_hash (char_not_mem_eqLine ind hv (by decide) (by decide)
      (by decide) (by decide) (by decide) (hash_not_mem_natDec hv))
    have helseif := fun hv => noPhp_of_no_hash (char_not_mem_elseifLine ind hv (by decide)
      (by decide) (by decide) (by decide) (by decide) (hash_not_mem_natDec hv))
    have helse := noPhp_of_no_hash (char_not_mem_elseLine ind (by decide) (by decide))
    have hclose := noPhp_of_no_hash (char_not_mem_closeLine ind (by decide) (by decide))
    by_cases h1 : l.length = 1
    · rw [generateBreakHelper, if_neg hnil, if_pos h1, h1]
      exact markerLineCount_php_foundHash _ _ ind
    by_cases hmid0 : (l.length - 1) / 2 = 0
    · have hlen2 : l.length = 2 := by omega
      rw [generateBreakHelper, if_neg hnil, if_neg h1, if_pos hmid0, ifThen, hmid0,
        show l.length - 1 = 1 by omega]
      have hl1 := markerLineCount_php_foundHash (l.getD 0 0) (m (l.getD 0 0)) (ind + 4)
      have hl2 := markerLineCount_php_foundHash (l.getD 1 0) (m (l.getD 1 0)) (ind + 4)
      rw [markerLineCount] at hl1 hl2 ⊢
      simp only [List.countP_append, List.countP_cons, List.countP_nil, hl1, hl2,
        hif, helse, hclose]
      simp
      omega
    · rw [generateBreakHelper, if_neg hnil, if_neg h1, if_neg hmid0, ifThenElse]
      have hl1 := markerLineCount_php_foundHash (l.getD ((l.length - 1) / 2) 0)
        (m (l.getD ((l.length - 1) / 2) 0)) (ind + 4)
      have hlt := ih (l.take ((l.length - 1) / 2)) m (ind + 4) (by simp; omega)
      have hrt := ih (l.drop ((l.length - 1) / 2 + 1)) m (ind + 4) (by simp; omega)
      have hmlt : (l.length - 1) / 2 < l.length - 1 := Nat.div_lt_self (by omega) (by omega)
      rw [markerLineCount] at hl1 hlt hrt ⊢
      simp only [List.countP_append, List.countP_cons, List.countP_nil, hl1, hlt, hrt,
        hif, helseif, helse, hclose]
      simp
      omega

theorem generateBreakHelper_no_dollar :
    ∀ (n : Nat) (l : List Nat) (m : Nat → List Char) (ind : Nat), l.length ≤ n →
      (∀ h ∈ l, '$' ∉ m h) →
      ∀ line ∈ generateBreakHelper m ind l, '$' ∉ line := by
  intro n
  induction n with
  | zero =>
    intro l m ind hlen hm
    have hnil : l = [] := List.length_eq_zero.mp (by omega)
    subst hnil
    rw [generateBreakHelper, if_pos rfl]
    simp
  | succ n ih =>
    intro l m ind hlen hm
    by_cases hnil : l = []
    · subst hnil
      rw [generateBreakHelper, if_pos rfl]
      simp
    have hpos : 0 < l.length := List.length_pos.mpr hnil
    by_cases h1 : l.length = 1
    · rw [generateBreakHelper, if_neg hnil, if_pos h1]
      exact no_dollar_foundHash (hm _ (getD_mem (by omega)))
    by_cases hmid0 : (l.length - 1) / 2 = 0
    · rw [generateBreakHelper, if_neg hnil, if_neg h1, if_pos hmid0, ifThen]
      intro line hline
      rcases List.mem_append.mp hline with hline | hline
      · rcases List.mem_append.mp hline with hline | hline
        · rcases List.mem_append.mp hline with hline | hline
          · rcases List.mem_append.mp hline with hline | hline
            · rcases List.mem_singleton.mp hline with rfl
              exact char_not_mem_eqLine ind _ (by decide) (by decide) (by decide)
                (by decide) (by decide) (dollar_not_mem_natDec _)
            · exact no_dollar_foundHash
                (hm _ (getD_mem (by omega))) line hline
          · rcases List.mem_singleton.mp hline with rfl
            exact char_not_mem_elseLine ind (by decide) (by decide)
        · exact no_dollar_foundHash (hm _ (getD_mem (by omega))) line hline
      · rcases List.mem_singleton.mp hline with rfl
        exact char_not_mem_closeLine ind (by decide) (by decide)
    · rw [generateBreakHelper, if_neg hnil, if_neg h1, if_neg hmid0, ifThenElse]
      intro line hline
      rcases List.mem_append.mp hline with hline | hline
      · rcases List.mem_append.mp hline with hline | hline
        · rcases List.mem_append.mp hline with hline | hline
          · rcases List.mem_append.mp hline with hline | hline
            · rcases List.mem_append.mp hline with hline | hline
              · rcases List.mem_append.mp hline with hline | hline
                · rcases List.mem_singleton.mp hline with rfl
                  exact char_not_mem_eqLine ind _ (by decide) (by decide) (by decide)
                    (by decide) (by decide) (dollar_not_mem_natDec _)
                · exact no_dollar_foundHash
                    (hm _ (getD_mem (by omega))) line hline
              · rcases List.mem_singleton.mp hline with rfl
                exact char_not_mem_elseifLine ind _ (by decide) (by decide) (by decide)
                  (by decide) (by decide) (dollar_not_mem_natDec _)
            · exact ih (l.take ((l.length - 1) / 2)) m (ind + 4) (by simp; omega)
                (fun h hh => hm h (List.mem_of_mem_take hh)) line hline
          · rcases List.mem_singleton.mp hline with rfl
            exact char_not_mem_elseLine ind (by decide) (by decide)
        · exact ih (l.drop ((l.length - 1) / 2 + 1)) m (ind + 4) (by simp; omega)
            (fun h hh => hm h (List.mem_of_mem_drop hh)) line hline
      · rcases List.mem_singleton.mp hline with rfl
        exact char_not_mem_closeLine ind (by decide) (by decide)

theorem char_not_mem_locIfLine {c : Char} (level : Nat)
    (h1 : c ∉ str "    if (level <= ") (h2 : c ∉ str ") \x7b") (hdig : c ∉ natDec level) :
    c ∉ str "    if (level <= " ++ natDec level ++ str ") \x7b" := by
  intro hmem
  rcases List.mem_append.mp hmem with hmem | hmem
  · rcases List.mem_append.mp hmem with hmem | hmem
    · exact h1 hmem
    · exact hdig hmem
  · exact h2 hmem

theorem hash_not_mem_levelLine (level : Nat) :
    '#' ∉ str "        count++; " ++ levelSentinel ++ str " " ++ natDec level := by
  intro hmem
  rcases List.mem_append.mp hmem with hmem | hmem
  · rcases List.mem_append.mp hmem with hmem | hmem
    · rcases List.mem_append.mp hmem with hmem | hmem
      · exact absurd hmem (by decide)
      · exact absurd hmem (by decide)
    · exact absurd hmem (by decide)
  · exact hash_not_mem_natDec level hmem

theorem containsSub_lvl_levelLine (level : Nat) :
    containsSub levelSentinel
      (str "        count++; " ++ levelSentinel ++ str " " ++ natDec level) = true := by
  refine (containsSub_iff _ _).mpr ⟨str "        count++; ", str " " ++ natDec level, ?_⟩
  simp

theorem generateLocBody_no_hash (d : Nat) : ∀ line ∈ generateLocBody d, '#' ∉ line := by
  intro line hline
  rw [generateLocBody] at hline
  obtain ⟨level, hlev, hmem⟩ := List.mem_flatMap.mp hline
  rcases List.mem_cons.mp hmem with rfl | hmem
  · exact char_not_mem_locIfLine level (by decide) (by decide) (hash_not_mem_natDec level)
  rcases List.mem_cons.mp hmem with rfl | hmem
  · exact hash_not_mem_levelLine level
  rcases List.mem_cons.mp hmem with rfl | hmem
  · exact (by decide : '#' ∉ str "    \x7d")
  · cases hmem

theorem generateLocBody_lvl_filter (d : Nat) :
    markerLines levelSentinel (generateLocBody d) =
      (List.range d).map
        (fun level => str "        count++; " ++ levelSentinel ++ str " " ++ natDec level) := by
  induction d with
  | zero => rfl
  | succ d ih =>
    rw [generateLocBody, List.range_succ, List.flatMap_append, markerLines,
      List.filter_append]
    rw [markerLines, generateLocBody] at ih
    rw [ih, List.map_append]
    congr 1
    have hifline := noLvl_of_no_dollar
      (char_not_mem_locIfLine d (by decide) (by decide) (dollar_not_mem_natDec d))
    have hlvl := containsSub_lvl_levelLine d
    have hclose := noLvl_of_no_dollar (show '$' ∉ str "    \x7d" by decide)
    simp only [List.flatMap_cons, List.flatMap_nil, List.append_nil, List.filter_cons,
      hifline, hlvl, hclose]
    simp

/-- C4: the generated file starts with the `NUM_FILES` and `MAX_STACK_DEPTH`
sentinel lines for `n` and `d`; it contains exactly `n` lines carrying the
`PHP_FILENAME` sentinel (one per file); its lines carrying the `LEVEL`
sentinel are exactly the `d` ladder lines numbered `0 … d-1`, in order; and
the ladder emits, per level `L`, the three lines
`if (level <= L) {` / `count++; «LEVEL» L` / `}`. Hypotheses: the paths
contain no `$` character and the skeleton fragments contain neither
marker (true of the real skeletons, which only mention `###`/`$$$` without
the leading `//`). -/

theorem claim_C4_generated_file_shape
    (skelHeader skelFooter skelLocHeader skelLocFooter : List (List Char))
    (arr : List Nat) (m : Nat → List Char) (maxStackDepth : Nat)
    (hpaths : ∀ h ∈ arr, '$' ∉ m h)
    (hskel : ∀ line ∈ skelHeader ++ skelFooter ++ skelLocHeader ++ skelLocFooter,
      containsSub phpFilenameSentinel line = false ∧
      containsSub levelSentinel line = false) :
    (generateBreakFile skelHeader skelFooter skelLocHeader skelLocFooter arr m
        maxStackDepth).take 2 =
      [numFilesSentinel ++ natDec arr.length,
       maxStackDepthSentinel ++ natDec maxStackDepth] ∧
    markerLineCount phpFilenameSentinel
      (generateBreakFile skelHeader skelFooter skelLocHeader skelLocFooter arr m
        maxStackDepth) = arr.length ∧
    markerLines levelSentinel
      (generateBreakFile skelHeader skelFooter skelLocHeader skelLocFooter arr m
        maxStackDepth) =
      (List.range maxStackDepth).map
        (fun level => str "        count++; " ++ levelSentinel ++ str " " ++
          natDec level) ∧
    generateLocBody maxStackDepth =
      (List.range maxStackDepth).flatMap (fun level =>
        [str "    if (level <= " ++ natDec level ++ str ") \x7b",
         str "        count++; " ++ levelSentinel ++ str " " ++ natDec level,
         str "    \x7d"]) := by
  have hpre1hash : containsSub phpFilenameSentinel
      (numFilesSentinel ++ natDec arr.length) = false := by
    refine noPhp_of_no_hash ?_
    intro hmem
    rcases List.mem_append.mp hmem with hmem | hmem
    · exact absurd hmem (by decide)
    · exact hash_not_mem_natDec _ hmem
  have hpre2hash : containsSub phpFilenameSentinel
      (maxStackDepthSentinel ++ natDec maxStackDepth) = false := by
    refine noPhp_of_no_hash ?_
    intro hmem
    rcases List.mem_append.mp hmem with hmem | hmem
    · exact absurd hmem (by decide)
    · exact hash_not_mem_natDec _ hmem
  have hpre1lvl : containsSub levelSentinel
      (numFilesSentinel ++ natDec arr.length) = false := by
    refine noLvl_of_no_dollar ?_
    intro hmem
    rcases List.mem_append.mp hmem with hmem | hmem
    · exact absurd hmem (by decide)
    · exact dollar_not_mem_natDec _ hmem
  have hpre2lvl : containsSub levelSentinel
      (maxStackDepthSentinel ++ natDec maxStackDepth) = false := by
    refine noLvl_of_no_dollar ?_
    intro hmem
    rcases List.mem_append.mp hmem with hmem | hmem
    · exact absurd hmem (by decide)
    · exact dollar_not_mem_natDec _ hmem
  have hempty_hash : containsSub phpFilenameSentinel ([] : List Char) = false := by decide
  have hempty_lvl : containsSub levelSentinel ([] : List Char) = false := by decide
  have hskelH := fun line hl => hskel line (List.mem_append.mpr (Or.inl
    (List.mem_append.mpr (Or.inl (List.mem_append.mpr (Or.inl hl))))))
  have hskelF := fun line hl => hskel line (List.mem_append.mpr (Or.inl
    (List.mem_append.mpr (Or.inl (List.mem_append.mpr (Or.inr hl))))))
  have hskelLH := fun line hl => hskel line (List.mem_append.mpr (Or.inl
    (List.mem_append.mpr (Or.inr hl))))
  have hskelLF := fun line hl => hskel line (List.mem_append.mpr (Or.inr hl))
  refine ⟨rfl, ?_, ?_, rfl⟩
  · rw [generateBreakFile, markerLineCount]
    simp only [List.countP_cons, List.countP_append, hpre1hash, hpre2hash, hempty_hash]
    have hbody : List.countP (fun line => containsSub phpFilenameSentinel line)
        (generateFileBreakBody arr m) = arr.length := by
      rw [generateFileBreakBody]
      exact generateBreakHelper_php_count arr.length arr m 4 le_rfl
    have hskelH0 : List.countP (fun line => containsSub phpFilenameSentinel line)
        skelHeader = 0 :=
      List.countP_eq_zero.mpr (fun line hl => by simp [(hskelH line hl).1])
    have hskelF0 : List.countP (fun line => containsSub phpFilenameSentinel line)
        skelFooter = 0 :=
      List.countP_eq_zero.mpr (fun line hl => by simp [(hskelF line hl).1])
    have hskelLH0 : List.countP (fun line => containsSub phpFilenameSentinel line)
        skelLocHeader = 0 :=
      List.countP_eq_zero.mpr (fun line hl => by simp [(hskelLH line hl).1])
    have hskelLF0 : List.countP (fun line => containsSub phpFilenameSentinel line)
        skelLocFooter = 0 :=
      List.countP_eq_zero.mpr (fun line hl => by simp [(hskelLF line hl).1])
    have hloc0 : List.countP (fun line => containsSub phpFilenameSentinel line)
        (generateLocBody maxStackDepth) = 0 :=
      List.countP_eq_zero.mpr (fun line hl => by
        simp [noPhp_of_no_hash (generateLocBody_no_hash maxStackDepth line hl)])
    rw [hbody, hskelH0, hskelF0, hskelLH0, hskelLF0, hloc0]
    simp
  · rw [generateBreakFile, markerLines]
    simp only [List.filter_cons, hpre1lvl, hpre2lvl]
    have hbody : List.filter (fun line => containsSub levelSentinel line)
        (generateFileBreakBody arr m) = [] := by
      rw [List.filter_eq_nil_iff]
      intro line hl
      rw [generateFileBreakBody] at hl
      simp [noLvl_of_no_dollar
        (generateBreakHelper_no_dollar arr.length arr m 4 le_rfl hpaths line hl)]
    have hskelH0 : List.filter (fun line => containsSub levelSentinel line) skelHeader = [] :=
      List.filter_eq_nil_iff.mpr (fun line hl => by simp [(hskelH line hl).2])
    have hskelF0 : List.filter (fun line => containsSub levelSentinel line) skelFooter = [] :=
      List.filter_eq_nil_iff.mpr (fun line hl => by simp [(hskelF line hl).2])
    have hskelLH0 : List.filter (fun line => containsSub levelSentinel line)
        skelLocHeader = [] :=
      List.filter_eq_nil_iff.mpr (fun line hl => by simp [(hskelLH line hl).2])
    have hskelLF0 : List.filter (fun line => containsSub levelSentinel line)
        skelLocFooter = [] :=
      List.filter_eq_nil_iff.mpr (fun line hl => by simp [(hskelLF line hl).2])
    have hloc := generateLocBody_lvl_filter maxStackDepth
    rw [markerLines] at hloc
    simp only [List.filter_append, hbody, hskelH0, hskelF0, hskelLH0, hskelLF0, hloc,
      List.filter_cons, hempty_lvl]
    simp

/-- Witness for C4: a two-file tree with `max_stack_depth = 3` and concrete
skeleton fragments (including a `#include` line, which carries a `#` but
not the `//###` marker). -/

theorem claim_C4_generated_file_shape_witness :
    (generateBreakFile [str "#include \"php.h\""] [str "\x7d"] [str "void loc() \x7b"]
        [str "\x7d"] [11, 22]
        (fun h => if h = 11 then str "/src/a.php" else str "/src/sub/b.module") 3).take 2 =
      [numFilesSentinel ++ natDec 2, maxStackDepthSentinel ++ natDec 3] ∧
    markerLineCount phpFilenameSentinel
      (generateBreakFile [str "#include \"php.h\""] [str "\x7d"] [str "void loc() \x7b"]
        [str "\x7d"] [11, 22]
        (fun h => if h = 11 then str "/src/a.php" else str "/src/sub/b.module") 3) = 2 ∧
    markerLines levelSentinel
      (generateBreakFile [str "#include \"php.h\""] [str "\x7d"] [str "void loc() \x7b"]
        [str "\x7d"] [11, 22]
        (fun h => if h = 11 then str "/src/a.php" else str "/src/sub/b.module") 3) =
      (List.range 3).map
        (fun level => str "        count++; " ++ levelSentinel ++ str " " ++
          natDec level) ∧
    generateLocBody 3 =
      (List.range 3).flatMap (fun level =>
        [str "    if (level <= " ++ natDec level ++ str ") \x7b",
         str "        count++; " ++ levelSentinel ++ str " " ++ natDec level,
         str "    \x7d"]) :=
  claim_C4_generated_file_shape [str "#include \"php.h\""] [str "\x7d"]
    [str "void loc() \x7b"] [str "\x7d"] [11, 22]
    (fun h => if h = 11 then str "/src/a.php" else str "/src/sub/b.module") 3
    (by decide) (by decide)

theorem insertAL_fresh {β : Type} (m : List (List Char × β)) (k : List Char) (v : β)
    (h : k ∉ m.map (·.1)) : insertAL m k v = m ++ [(k, v)] := by
  rw [insertAL]
  congr 1
  refine List.filter_eq_self.mpr (fun p hp => ?_)
  simp only [Bool.not_eq_true']
  refine beq_eq_false_iff_ne.mpr (fun hk => ?_)
  exact h (List.mem_map.mpr ⟨p, hp, hk⟩)

theorem cblmStep_skip {line : List Char}
    (h : containsSub phpFilenameSentinel line = false) (lineno : Nat)
    (bpLocMap : List (List Char × Nat)) : cblmStep lineno bpLocMap line = bpLocMap := by
  rw [containsSub] at h
  rw [cblmStep]
  cases hidx : listIndexOf phpFilenameSentinel line with
  | none => rfl
  | some i =>
    rw [hidx] at h
    simp at h

theorem cblm_skip_seg :
    ∀ (seg : List (List Char)),
      (∀ line ∈ seg, containsSub phpFilenameSentinel line = false) →
      ∀ (lineno : Nat) (acc : List (List Char × Nat)) (rest : List (List Char)),
        constructBreakpointLocMapAux lineno acc (seg ++ rest) =
          constructBreakpointLocMapAux (lineno + seg.length) acc rest := by
  intro seg
  induction seg with
  | nil => intro _ lineno acc rest; simp
  | cons line seg ih =>
    intro hseg lineno acc rest
    rw [List.cons_append, constructBreakpointLocMapAux,
      cblmStep_skip (hseg line (by simp)) lineno acc,
      ih (fun l hl => hseg l (by simp [hl])) (lineno + 1) acc rest]
    congr 1
    simp
    omega

theorem listIndexOf_php_returnLine (ind : Nat) (path : List Char) :
    listIndexOf phpFilenameSentinel
      (spaces ind ++ str "return; " ++ phpFilenameSentinel ++ str " " ++ path) =
      some (ind + 8) := by
  have heq : spaces ind ++ str "return; " ++ phpFilenameSentinel ++ str " " ++ path =
      spaces ind ++ (str "return; " ++ (phpFilenameSentinel ++ (str " " ++ path))) := by
    simp
  rw [heq, listIndexOf_spaces_append
    (show phpFilenameSentinel = '/' :: str "/###" from rfl) (by decide) ind]
  have hinner : listIndexOf phpFilenameSentinel
      (str "return; " ++ (phpFilenameSentinel ++ (str " " ++ path))) = some 8 := by
    rw [show str "return; " = ['r', 'e', 't', 'u', 'r', 'n', ';', ' '] from rfl,
      show phpFilenameSentinel = ['/', '/', '#', '#', '#'] from rfl]
    simp [listIndexOf, List.isPrefixOf]
  rw [hinner]
  simp
  omega

theorem drop_php_returnLine (ind : Nat) (path : List Char) :
    (spaces ind ++ str "return; " ++ phpFilenameSentinel ++ str " " ++ path).drop
      (ind + 8 + dontbugCpathStartsAt) = path := by
  rw [dontbugCpathStartsAt]
  have heq : spaces ind ++ str "return; " ++ phpFilenameSentinel ++ str " " ++ path =
      (spaces ind ++ str "return; " ++ phpFilenameSentinel ++ str " ") ++ path := by
    simp
  rw [heq]
  refine List.drop_left' ?_
  simp [spaces, show (str "return; ").length = 8 by decide,
    show phpFilenameSentinel.length = 5 by decide, show (str " ").length = 1 by decide]

theorem trimSpace_fileUriKey {path : List Char} (hpath : cleanPath path) :
    trimSpace (str "file://" ++ path) = str "file://" ++ path := by
  obtain ⟨hne, hhead, hlast⟩ := hpath
  refine trimSpace_eq_self ?_ ?_
  · intro c hc
    rw [show (str "file://" ++ path).head? = some 'f' from rfl] at hc
    injection hc with hc
    subst hc
    decide
  · intro c hc
    rw [List.getLast?_append_of_ne_nil (str "file://") hne] at hc
    rw [noWsOpt.eq_def] at hlast
    rw [hc] at hlast
    simpa using hlast

theorem cblmStep_returnLine (ind lineno : Nat) (path : List Char)
    (hpath : cleanPath path) (bpLocMap : List (List Char × Nat))
    (hfresh : (str "file://" ++ path) ∉ bpLocMap.map (·.1)) :
    cblmStep lineno bpLocMap
        (spaces ind ++ str "return; " ++ phpFilenameSentinel ++ str " " ++ path) =
      bpLocMap ++ [(str "file://" ++ path, lineno)] := by
  rw [cblmStep, listIndexOf_php_returnLine ind path, Option.elim_some,
    drop_php_returnLine ind path, trimSpace_fileUriKey hpath]
  exact insertAL_fresh bpLocMap _ lineno hfresh

theorem cblm_generateBreakHelper :
    ∀ (n : Nat) (l : List Nat) (m : Nat → List Char) (ind : Nat),
      l.length ≤ n →
      (∀ h ∈ l, cleanPath (m h)) →
      (l.map (fun h => str "file://" ++ m h)).Nodup →
      ∀ (lineno : Nat) (acc : List (List Char × Nat)) (rest : List (List Char)),
        (∀ h ∈ l, (str "file://" ++ m h) ∉ acc.map (·.1)) →
        ∃ es : List (List Char × Nat),
          constructBreakpointLocMapAux lineno acc (generateBreakHelper m ind l ++ rest) =
            constructBreakpointLocMapAux (lineno + (generateBreakHelper m ind l).length)
              (acc ++ es) rest ∧
          List.Perm (es.map (·.1)) (l.map (fun h => str "file://" ++ m h)) ∧
          List.Chain' (· < ·) (es.map (·.2)) ∧
          (∀ v ∈ es.map (·.2), lineno ≤ v ∧
            v < lineno + (generateBreakHelper m ind l).length) := by
  intro n
  induction n with
  | zero =>
    intro l m ind hlen hpaths hkeys lineno acc rest hfresh
    have hnil : l = [] := List.length_eq_zero.mp (by omega)
    subst hnil
    refine ⟨[], ?_, ?_, ?_, ?_⟩
    · rw [generateBreakHelper, if_pos rfl]
      simp
    · simp
    · simp
    · simp
  | succ n ih =>
    intro l m ind hlen hpaths hkeys lineno acc rest hfresh
    by_cases hnil : l = []
    · subst hnil
      refine ⟨[], ?_, ?_, ?_, ?_⟩
      · rw [generateBreakHelper, if_pos rfl]
        simp
      · simp
      · simp
      · simp
    have hpos : 0 < l.length := List.length_pos.mpr hnil
    by_cases h1 : l.length = 1
    · -- leaf: a single file
      obtain ⟨x, rfl⟩ := List.length_eq_one.mp h1
      have hbody : generateBreakHelper m ind [x] = foundHash x (m x) ind := by
        rw [generateBreakHelper, if_neg hnil, if_pos h1]
        rfl
      have hcomment := noPhp_of_no_hash (char_not_mem_hashComment ind x (by decide)
        (by decide) (hash_not_mem_natDec x))
      refine ⟨[(str "file://" ++ m x, lineno + 1)], ?_, ?_, ?_, ?_⟩
      · rw [hbody, foundHash, List.cons_append, List.cons_append, List.nil_append,
          constructBreakpointLocMapAux, cblmStep_skip hcomment,
          constructBreakpointLocMapAux,
          cblmStep_returnLine ind (lineno + 1) (m x) (hpaths x (by simp))
            acc (hfresh x (by simp))]
        congr 1
      · simp
      · simp
      · intro v hv
        rw [hbody, foundHash]
        simp at hv
        simp [hv]
    by_cases hmid0 : (l.length - 1) / 2 = 0
    · -- two files
      have hlen2 : l.length = 2 := by omega
      obtain ⟨x, y, rfl⟩ := List.length_eq_two.mp hlen2
      have hkxy : str "file://" ++ m x ≠ str "file://" ++ m y := by
        simp only [List.map_cons, List.map_nil] at hkeys
        have hnm := (List.nodup_cons.mp hkeys).1
        intro he
        exact hnm (by simp [he])
      have hbody : generateBreakHelper m ind [x, y] =
          [spaces ind ++ str "if (" ++ eqC x ++ str ") \x7b"] ++
            foundHash x (m x) (ind + 4) ++
            [spaces ind ++ str "\x7d else \x7b"] ++ foundHash y (m y) (ind + 4) ++
            [spaces ind ++ str "\x7d"] := by
        rw [generateBreakHelper, if_neg hnil, if_neg h1, if_pos hmid0, ifThen, hmid0,
          show [x, y].length - 1 = 1 from rfl]
        rfl
      have hif := noPhp_of_no_hash (char_not_mem_eqLine ind x (by decide) (by decide)
        (by decide) (by decide) (by decide) (hash_not_mem_natDec x))
      have helse := noPhp_of_no_hash (char_not_mem_elseLine ind (by decide) (by decide))
      have hclose := noPhp_of_no_hash (char_not_mem_closeLine ind (by decide) (by decide))
      have hcx := noPhp_of_no_hash (char_not_mem_hashComment (ind + 4) x (by decide)
        (by decide) (hash_not_mem_natDec x))
      have hcy := noPhp_of_no_hash (char_not_mem_hashComment (ind + 4) y (by decide)
        (by decide) (hash_not_mem_natDec y))
      refine ⟨[(str "file://" ++ m x, lineno + 2), (str "file://" ++ m y, lineno + 5)],
        ?_, ?_, ?_, ?_⟩
      · rw [hbody, foundHash, foundHash]
        simp only [List.cons_append, List.nil_append, constructBreakpointLocMapAux]
        rw [cblmStep_skip hif, cblmStep_skip hcx,
          cblmStep_returnLine (ind + 4) (lineno + 2) (m x) (hpaths x (by simp))
            acc (hfresh x (by simp)),
          cblmStep_skip helse, cblmStep_skip hcy,
          cblmStep_returnLine (ind + 4) (lineno + 5) (m y) (hpaths y (by simp))
            (acc ++ [(str "file://" ++ m x, lineno + 2)])
            (by
              intro hmem
              rw [List.map_append, List.mem_append] at hmem
              rcases hmem with hmem | hmem
              · exact hfresh y (by simp) hmem
              · simp only [List.map_cons, List.map_nil, List.mem_singleton] at hmem
                exact hkxy hmem.symm),
          cblmStep_skip hclose]
        congr 1
        simp
      · simp
      · simp
      · intro v hv
        rw [hbody, foundHash, foundHash]
        simp only [List.map_cons, List.map_nil, List.mem_cons, List.mem_singleton,
          List.not_mem_nil, or_false] at hv
        rcases hv with rfl | rfl
        · simp
        · simp
    · -- at least three files: the recursive if/else-if/else shape
      have hmlt : (l.length - 1) / 2 < l.length - 1 := Nat.div_lt_self (by omega) (by omega)
      have hmpos : 0 < (l.length - 1) / 2 := by omega
      have hmid_lt : (l.length - 1) / 2 < l.length := by omega
      have hdecomp : l = l.take ((l.length - 1) / 2) ++
          l[(l.length - 1) / 2] :: l.drop ((l.length - 1) / 2 + 1) := by
        rw [List.getElem_cons_drop, List.take_append_drop]
      have hgetD : l.getD ((l.length - 1) / 2) 0 = l[(l.length - 1) / 2] :=
        List.getD_eq_getElem l 0 hmid_lt
      have hbody : generateBreakHelper m ind l =
          [spaces ind ++ str "if (" ++ eqC (l.getD ((l.length - 1) / 2) 0) ++
            str ") \x7b"] ++
            foundHash (l.getD ((l.length - 1) / 2) 0) (m (l.getD ((l.length - 1) / 2) 0))
              (ind + 4) ++
            [spaces ind ++ str "\x7d else if (" ++ ltC (l.getD ((l.length - 1) / 2) 0) ++
              str ") \x7b"] ++
            generateBreakHelper m (ind + 4) (l.take ((l.length - 1) / 2)) ++
            [spaces ind ++ str "\x7d else \x7b"] ++
            generateBreakHelper m (ind + 4) (l.drop ((l.length - 1) / 2 + 1)) ++
            [spaces ind ++ str "\x7d"] := by
        rw [generateBreakHelper, if_neg hnil, if_neg h1, if_neg hmid0, ifThenElse]
      have hif := noPhp_of_no_hash (char_not_mem_eqLine ind (l.getD ((l.length - 1) / 2) 0)
        (by decide) (by decide) (by decide) (by decide) (by decide)
        (hash_not_mem_natDec (l.getD ((l.length - 1) / 2) 0)))
      have helseif := noPhp_of_no_hash
        (char_not_mem_elseifLine ind (l.getD ((l.length - 1) / 2) 0) (by decide)
          (by decide) (by decide) (by decide) (by decide)
          (hash_not_mem_natDec (l.getD ((l.length - 1) / 2) 0)))
      have helse := noPhp_of_no_hash (char_not_mem_elseLine ind (by decide) (by decide))
      have hclose := noPhp_of_no_hash (char_not_mem_closeLine ind (by decide) (by decide))
      have hcmid := noPhp_of_no_hash
        (char_not_mem_hashComment (ind + 4) (l.getD ((l.length - 1) / 2) 0) (by decide)
          (by decide) (hash_not_mem_natDec (l.getD ((l.length - 1) / 2) 0)))
      -- split the key Nodup hypothesis along the decomposition
      have hkeys' := hkeys
      rw [hdecomp, List.map_append, List.map_cons] at hkeys'
      rw [List.nodup_append] at hkeys'
      obtain ⟨hndL, hndMR, hdisj⟩ := hkeys'
      rw [List.nodup_cons] at hndMR
      obtain ⟨hmidR, hndR⟩ := hndMR
      have hmidL : (str "file://" ++ m (l[(l.length - 1) / 2])) ∉
          (l.take ((l.length - 1) / 2)).map (fun h => str "file://" ++ m h) := by
        intro hmem
        exact hdisj hmem (by simp)
      -- IH on the left slice
      obtain ⟨esL, hL1, hL2, hL3, hL4⟩ := ih (l.take ((l.length - 1) / 2)) m (ind + 4)
        (by simp; omega)
        (fun h hh => hpaths h (List.mem_of_mem_take hh))
        hndL
        (lineno + 1 + 1 + 1 + 1)
        (acc ++ [(str "file://" ++ m (l.getD ((l.length - 1) / 2) 0), lineno + 2)])
        ((spaces ind ++ str "\x7d else \x7b") ::
          (generateBreakHelper m (ind + 4) (l.drop ((l.length - 1) / 2 + 1)) ++
            ((spaces ind ++ str "\x7d") :: rest)))
        (by
          intro h hh hmem
          rw [List.map_append, List.mem_append] at hmem
          rcases hmem with hmem | hmem
          · exact hfresh h (List.mem_of_mem_take hh) hmem
          · simp only [List.map_cons, List.map_nil, List.mem_singleton] at hmem
            rw [hgetD] at hmem
            exact hmidL (hmem ▸ List.mem_map.mpr ⟨h, hh, rfl⟩))
      -- IH on the right slice
      obtain ⟨esR, hR1, hR2, hR3, hR4⟩ := ih (l.drop ((l.length - 1) / 2 + 1)) m (ind + 4)
        (by simp; omega)
        (fun h hh => hpaths h (List.mem_of_mem_drop hh))
        hndR
        (lineno + 1 + 1 + 1 + 1 +
          (generateBreakHelper m (ind + 4) (l.take ((l.length - 1) / 2))).length + 1)
        ((acc ++ [(str "file://" ++ m (l.getD ((l.length - 1) / 2) 0), lineno + 2)]) ++ esL)
        ((spaces ind ++ str "\x7d") :: rest)
        (by
          intro h hh hmem
          rw [List.map_append, List.mem_append] at hmem
          rcases hmem with hmem | hmem
          · rw [List.map_append, List.mem_append] at hmem
            rcases hmem with hmem | hmem
            · exact hfresh h (List.mem_of_mem_drop hh) hmem
            · simp only [List.map_cons, List.map_nil, List.mem_singleton] at hmem
              rw [hgetD] at hmem
              exact hmidR (hmem ▸ List.mem_map.mpr ⟨h, hh, rfl⟩)
          · have hinL : (str "file://" ++ m h) ∈
                (l.take ((l.length - 1) / 2)).map (fun h => str "file://" ++ m h) :=
              hL2.mem_iff.mp hmem
            exact hdisj hinL (List.mem_cons_of_mem _ (List.mem_map.mpr ⟨h, hh, rfl⟩)))
      have hlenbody : (generateBreakHelper m ind l).length =
          6 + (generateBreakHelper m (ind + 4) (l.take ((l.length - 1) / 2))).length +
            (generateBreakHelper m (ind + 4) (l.drop ((l.length - 1) / 2 + 1))).length := by
        rw [hbody, foundHash]
        simp
        omega
      refine ⟨(str "file://" ++ m (l.getD ((l.length - 1) / 2) 0), lineno + 2) ::
        (esL ++ esR), ?_, ?_, ?_, ?_⟩
      · have e1 : generateBreakHelper m ind l ++ rest =
            (spaces ind ++ str "if (" ++ eqC (l.getD ((l.length - 1) / 2) 0) ++
              str ") \x7b") ::
            (spaces (ind + 4) ++ str "// hash == " ++
              natDec (l.getD ((l.length - 1) / 2) 0)) ::
            (spaces (ind + 4) ++ str "return; " ++ phpFilenameSentinel ++ str " " ++
              m (l.getD ((l.length - 1) / 2) 0)) ::
            (spaces ind ++ str "\x7d else if (" ++ ltC (l.getD ((l.length - 1) / 2) 0) ++
              str ") \x7b") ::
            (generateBreakHelper m (ind + 4) (l.take ((l.length - 1) / 2)) ++
              ((spaces ind ++ str "\x7d else \x7b") ::
                (generateBreakHelper m (ind + 4) (l.drop ((l.length - 1) / 2 + 1)) ++
                  ((spaces ind ++ str "\x7d") :: rest)))) := by
          rw [hbody, foundHash]
          simp
        rw [e1]
        simp only [constructBreakpointLocMapAux]
        rw [cblmStep_skip hif, cblmStep_skip hcmid,
          cblmStep_returnLine (ind + 4) (lineno + 2) (m (l.getD ((l.length - 1) / 2) 0))
            (hpaths _ (getD_mem hmid_lt)) acc (hfresh _ (getD_mem hmid_lt)),
          cblmStep_skip helseif, hL1]
        simp only [constructBreakpointLocMapAux]
        rw [cblmStep_skip helse, hR1]
        simp only [constructBreakpointLocMapAux]
        rw [cblmStep_skip hclose]
        congr 1
        · rw [hlenbody]
          omega
        · simp
      · simp only [List.map_cons, List.map_append]
        have hsplit : (l.take ((l.length - 1) / 2)).map (fun h => str "file://" ++ m h) ++
            (str "file://" ++ m (l[(l.length - 1) / 2])) ::
              (l.drop ((l.length - 1) / 2 + 1)).map (fun h => str "file://" ++ m h) =
            l.map (fun h => str "file://" ++ m h) := by
          conv_rhs => rw [hdecomp]
          rw [List.map_append, List.map_cons]
        rw [hgetD, ← hsplit]
        have h1 := hL2.append hR2
        have h2 := h1.cons (str "file://" ++ m (l[(l.length - 1) / 2]))
        exact h2.trans List.perm_middle.symm
      · simp only [List.map_cons, List.map_append]
        refine List.chain'_cons'.mpr ⟨?_, ?_⟩
        · intro y hy
          have hmem := List.mem_of_mem_head? hy
          rcases List.mem_append.mp hmem with hmem | hmem
          · have := hL4 y hmem
            omega
          · have := hR4 y hmem
            omega
        · refine List.chain'_append.mpr ⟨hL3, hR3, ?_⟩
          intro a ha b hb
          have hA := hL4 a (List.mem_of_mem_getLast? ha)
          have hB := hR4 b (List.mem_of_mem_head? hb)
          omega
      · intro v hv
        simp only [List.map_cons, List.map_append, List.mem_cons, List.mem_append] at hv
        rcases hv with rfl | hv | hv
        · rw [hlenbody]
          omega
        · have := hL4 v hv
          rw [hlenbody]
          omega
        · have := hR4 v hv
          rw [hlenbody]
          omega

/-- C3: sentinel round trip. For every generator input with a non-empty
sorted hash array, whitespace-clean paths, collision-free `file://` keys
and marker-free skeleton fragments, running the replay-side sentinel
parser `constructBreakpointLocMap` over the file produced by
`generateBreakFile` yields a map whose keys are exactly the scanned
script paths prefixed with `file://` (as a permutation of the input key
list), and whose values — the 1-based line numbers of the `//###` marker
lines, listed in the order the markers occur in the file — are strictly
ascending and all lie in `[1, total_lines]`. -/

theorem claim_C3_sentinel_round_trip
    (skelHeader skelFooter skelLocHeader skelLocFooter : List (List Char))
    (arr : List Nat) (m : Nat → List Char) (maxStackDepth : Nat)
    (hne : arr ≠ [])
    (hpaths : ∀ h ∈ arr, cleanPath (m h))
    (hkeys : (arr.map (fun h => str "file://" ++ m h)).Nodup)
    (hskel : ∀ line ∈ skelHeader ++ skelFooter ++ skelLocHeader ++ skelLocFooter,
        containsSub phpFilenameSentinel line = false) :
    List.Perm
      ((constructBreakpointLocMap (generateBreakFile skelHeader skelFooter skelLocHeader
        skelLocFooter arr m maxStackDepth)).map (fun e => e.1))
      (arr.map (fun h => str "file://" ++ m h)) ∧
    List.Chain' (fun a b => a < b)
      ((constructBreakpointLocMap (generateBreakFile skelHeader skelFooter skelLocHeader
        skelLocFooter arr m maxStackDepth)).map (fun e => e.2)) ∧
    ∀ v ∈ (constructBreakpointLocMap (generateBreakFile skelHeader skelFooter skelLocHeader
        skelLocFooter arr m maxStackDepth)).map (fun e => e.2),
      1 ≤ v ∧ v ≤ (generateBreakFile skelHeader skelFooter skelLocHeader skelLocFooter
        arr m maxStackDepth).length := by
  have hp1 : containsSub phpFilenameSentinel (numFilesSentinel ++ natDec arr.length) =
      false := by
    refine not_containsSub_of_not_mem (show '#' ∈ phpFilenameSentinel by decide) ?_
    intro hmem
    rcases List.mem_append.mp hmem with h | h
    · revert h; decide
    · exact hash_not_mem_natDec _ h
  have hp2 : containsSub phpFilenameSentinel
      (maxStackDepthSentinel ++ natDec maxStackDepth) = false := by
    refine not_containsSub_of_not_mem (show '#' ∈ phpFilenameSentinel by decide) ?_
    intro hmem
    rcases List.mem_append.mp hmem with h | h
    · revert h; decide
    · exact hash_not_mem_natDec _ h
  have hloc : ∀ line ∈ generateLocBody maxStackDepth,
      containsSub phpFilenameSentinel line = false := by
    intro line hline
    exact not_containsSub_of_not_mem (show '#' ∈ phpFilenameSentinel by decide)
      (generateLocBody_no_hash maxStackDepth line hline)
  obtain ⟨es, heq, hperm, hchain, hbounds⟩ :=
    cblm_generateBreakHelper arr.length arr m 4 le_rfl hpaths hkeys
      (3 + skelHeader.length) []
      ([] :: (skelFooter ++ skelLocHeader ++
        (generateLocBody maxStackDepth ++ ([] :: skelLocFooter))))
      (by intro h hh; simp)
  have htail : ∀ line ∈ ([] :: (skelFooter ++ skelLocHeader ++
      (generateLocBody maxStackDepth ++ ([] :: skelLocFooter)))),
      containsSub phpFilenameSentinel line = false := by
    intro line hl
    rcases List.mem_cons.mp hl with h | h
    · subst h; decide
    · rcases List.mem_append.mp h with h | h
      · rcases List.mem_append.mp h with h | h
        · exact hskel line (by simp [h])
        · exact hskel line (by simp [h])
      · rcases List.mem_append.mp h with h | h
        · exact hloc line h
        · rcases List.mem_cons.mp h with h | h
          · subst h; decide
          · exact hskel line (by simp [h])
  have hfull : constructBreakpointLocMap (generateBreakFile skelHeader skelFooter
      skelLocHeader skelLocFooter arr m maxStackDepth) = es := by
    rw [constructBreakpointLocMap, generateBreakFile, constructBreakpointLocMapAux,
      constructBreakpointLocMapAux, cblmStep_skip hp1, cblmStep_skip hp2]
    have eT : skelHeader ++ (generateFileBreakBody arr m ++ [[]]) ++ skelFooter ++
        skelLocHeader ++ (generateLocBody maxStackDepth ++ [[]]) ++ skelLocFooter =
        skelHeader ++ (generateBreakHelper m 4 arr ++
          ([] :: (skelFooter ++ skelLocHeader ++
            (generateLocBody maxStackDepth ++ ([] :: skelLocFooter))))) := by
      rw [generateFileBreakBody]
      simp
    rw [eT,
      cblm_skip_seg skelHeader (fun line hl => hskel line (by simp [hl])) 3 [],
      heq, List.nil_append]
    have h2 := cblm_skip_seg
      ([] :: (skelFooter ++ skelLocHeader ++
        (generateLocBody maxStackDepth ++ ([] :: skelLocFooter)))) htail
      (3 + skelHeader.length + (generateBreakHelper m 4 arr).length) es []
    rw [List.append_nil] at h2
    rw [h2]
    rfl
  have hlenF : (generateBreakFile skelHeader skelFooter skelLocHeader skelLocFooter
      arr m maxStackDepth).length =
      2 + skelHeader.length + ((generateBreakHelper m 4 arr).length + 1) +
        skelFooter.length + skelLocHeader.length +
        ((generateLocBody maxStackDepth).length + 1) + skelLocFooter.length := by
    rw [generateBreakFile, generateFileBreakBody]
    simp
    omega
  refine ⟨?_, ?_, ?_⟩
  · rw [hfull]
    exact hperm
  · rw [hfull]
    exact hchain
  · intro v hv
    rw [hfull] at hv
    have hb := hbounds v hv
    refine ⟨by omega, ?_⟩
    rw [hlenF]
    omega

theorem claim_C3_sentinel_round_trip_witness :
    List.Perm
      ((constructBreakpointLocMap (generateBreakFile [str "int main() \x7b"] [str "\x7d"]
        [str "void loc() \x7b"] [str "\x7d"] [11, 22]
        (fun h => if h = 11 then str "/src/a.php" else str "/src/b.php") 2)).map
          (fun e => e.1))
      ([11, 22].map (fun h => str "file://" ++
        (if h = 11 then str "/src/a.php" else str "/src/b.php"))) ∧
    List.Chain' (fun a b => a < b)
      ((constructBreakpointLocMap (generateBreakFile [str "int main() \x7b"] [str "\x7d"]
        [str "void loc() \x7b"] [str "\x7d"] [11, 22]
        (fun h => if h = 11 then str "/src/a.php" else str "/src/b.php") 2)).map
          (fun e => e.2)) ∧
    ∀ v ∈ (constructBreakpointLocMap (generateBreakFile [str "int main() \x7b"]
        [str "\x7d"] [str "void loc() \x7b"] [str "\x7d"] [11, 22]
        (fun h => if h = 11 then str "/src/a.php" else str "/src/b.php") 2)).map
          (fun e => e.2),
      1 ≤ v ∧ v ≤ (generateBreakFile [str "int main() \x7b"] [str "\x7d"]
        [str "void loc() \x7b"] [str "\x7d"] [11, 22]
        (fun h => if h = 11 then str "/src/a.php" else str "/src/b.php") 2).length :=
  claim_C3_sentinel_round_trip [str "int main() \x7b"] [str "\x7d"]
    [str "void loc() \x7b"] [str "\x7d"] [11, 22]
    (fun h => if h = 11 then str "/src/a.php" else str "/src/b.php") 2
    (by decide) (by decide) (by decide) (by decide)

end Dontbug
